import Mathlib

/-!
Verification of the KIB retrieval-and-guardrail answering pipeline.

This file gives a shallow embedding, in Lean 4, of the core answering
pipeline of the KIB knowledge-copilot repository
(`services/rag/app/{guardrails,answering,rag,llm,main,schemas}.py`) and
settles a list of claims about it.

Modelling conventions:
* Python strings are modelled as `List Char` (named `Str` below); the
  Python whitespace functions (`str.strip`, `str.split`) are modelled over
  the ASCII whitespace characters.
* Floating point retrieval distances are modelled as exact rationals.
* Blocking I/O (the embedding HTTP call, the SQL vector query, the
  generative-model call) is modelled by an environment record `Env` whose
  fields hold the outcome of each call (`Except IOErr _`); exceptions
  escaping a Python function are modelled by the `Except` error
  constructor.
* `json.loads` is Python standard-library code, external to the
  repository; its outcome on the sanitized model output is modelled as an
  environment parameter `parse : Str → ParseOutcome`.
* Database rows returned by the retrieval SQL query carry exactly the
  columns selected in `rag.py:retrieve_chunks`; nullable columns
  (pages, offsets, section, distance) are modelled with `Option`.
-/

/-- Python strings, modelled as lists of characters. -/
abbrev Str := List Char

/-- ASCII whitespace, as recognised by Python's `str.strip` / `str.split`
(space, tab, newline, carriage return, vertical tab, form feed). -/
def isPyWs (c : Char) : Bool :=
  c = ' ' || c = '\t' || c = '\n' || c = '\r' || c = '\x0b' || c = '\x0c'

/-- `strPrefix pat s` is true when `pat` occurs at the start of `s`. -/
def strPrefix : Str → Str → Bool
  | [], _ => true
  | _ :: _, [] => false
  | p :: ps, c :: cs => p = c && strPrefix ps cs

/-- Index of the leftmost occurrence of `pat` in `s`, if any
(the scan Python's `re` module performs for a literal pattern). -/
def findSub (pat : Str) : Str → Option Nat
  | [] => if strPrefix pat [] then some 0 else none
  | c :: rest =>
    if strPrefix pat (c :: rest) then some 0
    else (findSub pat rest).map (· + 1)

/-- Whether `pat` occurs anywhere in `s`. -/
def containsSub (pat : Str) (s : Str) : Bool :=
  (findSub pat s).isSome

/-- Python `str.strip()`: drop leading and trailing whitespace. -/
def pstrip (s : Str) : Str :=
  ((s.dropWhile isPyWs).reverse.dropWhile isPyWs).reverse

def thinkOpenTag : Str := "<think>".toList
def thinkCloseTag : Str := "</think>".toList
def fenceMark : Str := "```".toList
def jsonWord : Str := "json".toList

/-- One pass of `re.sub(r"<think>.*?</think>", "", raw, flags=re.DOTALL)`:
repeatedly delete the leftmost `<think>`, together with everything up to
and including the first `</think>` after it; a `<think>` with no later
`</think>` matches nothing (and then no later occurrence can match
either).  `fuel` only bounds the recursion; `raw.length` is always
enough. -/
def removeThinkAux : Nat → Str → Str
  | 0, s => s
  | fuel + 1, s =>
    match findSub thinkOpenTag s with
    | none => s
    | some i =>
      let after := s.drop (i + thinkOpenTag.length)
      match findSub thinkCloseTag after with
      | none => s
      | some j =>
        s.take i ++ removeThinkAux fuel (after.drop (j + thinkCloseTag.length))

def removeThinkBlocks (s : Str) : Str :=
  removeThinkAux s.length s

/-- After the lazy group of the fence regex, the remainder must be
`\s*` followed by a closing triple backtick: skip whitespace one
character at a time, testing for the fence at every position. -/
def wsThenFence : Str → Bool
  | [] => false
  | c :: rest =>
    if strPrefix fenceMark (c :: rest) then true
    else if isPyWs c then wsThenFence rest
    else false

/-- For the text `ta` after the greedy `\s*`, find the shortest non-empty
lazy group `(.+?)` that is followed by `\s*` and a closing fence; returns
the group.  Tries group lengths 1, 2, … as the lazy quantifier does. -/
def fenceGroupFrom (ta : Str) : Option Str :=
  ((List.range ta.length).find? (fun i => wsThenFence (ta.drop (i + 1)))).map
    (fun i => ta.take (i + 1))

/-- Backtracking over the greedy leading `\s*` of the fence regex:
`a` whitespace characters are consumed first (starting from the longest
whitespace prefix), retrying with one fewer on failure. -/
def fenceTryA (t : Str) : Nat → Option Str
  | 0 => fenceGroupFrom t
  | a + 1 =>
    match fenceGroupFrom (t.drop (a + 1)) with
    | some g => some g
    | none => fenceTryA t a

/-- Match the tail of the fence regex search at a
position where the opening fence has already been consumed, `t` being the
text after it; `(?:json)?` is greedy, so the `json` marker is consumed
first and reconsidered as group content only on failure. -/
def fenceMatchTail (t : Str) : Option Str :=
  fenceTryA t ((t.takeWhile isPyWs).length)

def fenceTryAt (s : Str) : Option Str :=
  if strPrefix fenceMark s then
    let t := s.drop fenceMark.length
    if strPrefix jsonWord t then
      match fenceMatchTail (t.drop jsonWord.length) with
      | some g => some g
      | none => fenceMatchTail t
    else fenceMatchTail t
  else none

/-- `re.search` of the fence pattern: try every start position, leftmost
first; the whole match must begin with a triple backtick. -/
def fenceSearch : Str → Option Str
  | [] => none
  | c :: rest =>
    match fenceTryAt (c :: rest) with
    | some g => some g
    | none => fenceSearch rest

/-- The response sanitizer inlined in `answering.py:answer_with_llm`
(lines 127–135): strip `<think>…</think>` blocks, strip the result, drop
an unmatched leading `</think>`, then extract the content of a fenced
code block when the fence regex matches. -/
def sanitizeLLMOutput (raw : Str) : Str :=
  let cleaned := pstrip (removeThinkBlocks raw)
  let cleaned :=
    if strPrefix thinkCloseTag cleaned then
      pstrip (cleaned.drop thinkCloseTag.length)
    else cleaned
  match fenceSearch cleaned with
  | some g => pstrip g
  | none => cleaned

example : sanitizeLLMOutput " hello ".toList = "hello".toList := by decide
example :
    sanitizeLLMOutput "<think>x</think>```json\nthe answer\n```".toList
      = "the answer".toList := by decide
example : sanitizeLLMOutput "```json```".toList = "json".toList := by decide

/-! Data model: the row shape produced by `rag.py:retrieve_chunks` (one
record per retrieved chunk, column names as in the SQL select list), the
citation dictionaries, and the response payload of `schemas.py`. -/

/-- A retrieved candidate chunk row (`rag.py:retrieve_chunks` select list,
plus the `distance` column).  Nullable columns are `Option`. -/
structure Row where
  chunk_id : Str
  text : Str
  page_start : Option Int
  page_end : Option Int
  «section» : Option Str
  offset_start : Option Int
  offset_end : Option Int
  document_version_id : Str
  document_version : Str
  document_id : Str
  document_title : Str
  document_status : Str
  source_uri : Str
  distance : Option ℚ
deriving DecidableEq, Repr

/-- A citation dictionary as produced by the model and read by
`guardrails.py:_find_matching_row` / `normalize_citations`:
`doc_id` models `str(citation.get("doc_id", ""))`, `page_number` models
`citation.get("page_number")` (JSON null / absent ↦ `none`), `quote`
models `citation.get("quote")`. -/
structure CitIn where
  doc_id : Str
  page_number : Option Int
  quote : Option Str
deriving DecidableEq, Repr

/-- A normalized output citation (`schemas.py:Citation`). -/
structure CitationOut where
  doc_title : Str
  doc_id : Str
  document_version : Str
  page_number : Option Int
  start_offset : Option Int
  end_offset : Option Int
  quote : Str
  source_uri : Str
deriving DecidableEq, Repr

/-- The response payload (`schemas.py:StrictRagResponse`). -/
structure Payload where
  language : Str
  answer : Str
  confidence : Str
  citations : List CitationOut
  missing_info : Option Str
  safe_next_steps : List Str
deriving DecidableEq, Repr

/-! Fixed localized strings from `guardrails.py`. -/

def REFUSAL_TEXT_EN : Str :=
  "I can't answer from KIB's approved documents for this question.".toList

def REFUSAL_TEXT_AR : Str :=
  "لا أستطيع الإجابة من مستندات KIB المعتمدة لهذا السؤال.".toList

def MISSING_INFO_EN : Str :=
  ("No approved documents matched this question, or the evidence was too weak. "
    ++ "This may be outside the KIB knowledge base. "
    ++ "Try adding the policy name, product name, or section title.").toList

def MISSING_INFO_AR : Str :=
  ("لا توجد مستندات معتمدة مطابقة لهذا السؤال، أو أن الأدلة ضعيفة. "
    ++ "قد يكون هذا خارج نطاق قاعدة معرفة KIB. "
    ++ "جرّب إضافة اسم السياسة أو المنتج أو عنوان القسم.").toList

def SAFE_NEXT_STEPS_EN : List Str :=
  [ "Search by policy or product name.".toList,
    "Include the document section or clause title.".toList,
    "Ask about a specific form, fee, or limit.".toList ]

def SAFE_NEXT_STEPS_AR : List Str :=
  [ "ابحث باسم السياسة أو المنتج.".toList,
    "اذكر عنوان القسم أو البند في المستند.".toList,
    "اسأل عن نموذج أو رسوم أو حد محدد.".toList ]

/-- `guardrails.py:safe_next_steps`. -/
def safe_next_steps (language : Str) : List Str :=
  (if language = "ar".toList then SAFE_NEXT_STEPS_AR else SAFE_NEXT_STEPS_EN).take 3

/-- Python `str.split()` (no separator): split on whitespace runs,
dropping empty pieces; `acc` holds the current word reversed. -/
def wordsAux : Str → Str → List Str
  | [], acc => if acc.isEmpty then [] else [acc.reverse]
  | c :: rest, acc =>
    if isPyWs c then
      if acc.isEmpty then wordsAux rest [] else acc.reverse :: wordsAux rest []
    else wordsAux rest (c :: acc)

def pySplit (s : Str) : List Str := wordsAux s []

/-- Python `" ".join(ws)`. -/
def joinSpace : List Str → Str
  | [] => []
  | [w] => w
  | w :: rest => w ++ ' ' :: joinSpace rest

/-- `guardrails.py:_truncate_words`. -/
def truncate_words (text : Str) (max_words : Nat) : Str :=
  let words := pySplit (pstrip text)
  if words.length ≤ max_words then pstrip text
  else joinSpace (words.take max_words)

/-- Python `text.replace("\n", " ")`. -/
def replaceNewlines (s : Str) : Str :=
  s.map (fun c => if c = '\n' then ' ' else c)

/-- `guardrails.py:_quote_snippet`. -/
def quote_snippet (text : Str) : Str :=
  truncate_words (pstrip (replaceNewlines text)) 25

/-- The `language = "ar" if language == "ar" else "en"` coercion used by
`answering.py:answer_with_llm` and `guardrails.py:build_refusal_payload`
and `validate_or_refuse`. -/
def coerceLang (language : Str) : Str :=
  if language = "ar".toList then "ar".toList else "en".toList

/-- `guardrails.py:translate_missing_info`. -/
def translate_missing_info (confidence : Str) (language : Str) : Option Str :=
  if confidence ≠ "low".toList then none
  else if language = "ar".toList then some MISSING_INFO_AR
  else some MISSING_INFO_EN

/-- `guardrails.py:build_refusal_payload`. -/
def build_refusal_payload (language : Str) : Payload :=
  let language := coerceLang language
  { language := language
    answer := if language = "ar".toList then REFUSAL_TEXT_AR else REFUSAL_TEXT_EN
    confidence := "low".toList
    citations := []
    missing_info := translate_missing_info "low".toList language
    safe_next_steps := safe_next_steps language }

/-- The similarity accumulation loop of
`guardrails.py:compute_confidence` (skip undefined distances, clamp
`1 − d` into `[0, 1]`). -/
def computeSims : List Row → List ℚ
  | [] => []
  | row :: rest =>
    match row.distance with
    | none => computeSims rest
    | some d =>
      let sim : ℚ := 1 - d
      let sim := if sim < 0 then 0 else sim
      let sim := if sim > 1 then 1 else sim
      sim :: computeSims rest

/-- `guardrails.py:compute_confidence`. -/
def compute_confidence (rows : List Row) (citations : List CitationOut) : Str :=
  if citations.isEmpty then "low".toList
  else
    let sims := computeSims rows
    let avg_sim : ℚ := if sims.isEmpty then 0 else sims.sum / (sims.length : ℚ)
    if 2 ≤ citations.length ∧ (0.7 : ℚ) ≤ avg_sim then "high".toList
    else if 1 ≤ citations.length ∧ (0.55 : ℚ) ≤ avg_sim then "medium".toList
    else "low".toList

/-- `guardrails.py:_find_matching_row`: match by `doc_id` + `page_number`
first, then fall back to `doc_id` alone. -/
def find_matching_row (citation : CitIn) (rows : List Row) : Option Row :=
  match rows.find? (fun row =>
      row.document_id = citation.doc_id && row.page_start = citation.page_number) with
  | some row => some row
  | none => rows.find? (fun row => row.document_id = citation.doc_id)

/-- The citation dictionary `normalize_citations` builds from a matched
row (`quote` falls back to the row text when the model quote is missing
or empty, mirroring Python's `citation.get("quote") or row.get("text", "")`). -/
def mkCitation (row : Row) (citation : CitIn) : CitationOut :=
  { doc_title := row.document_title
    doc_id := row.document_id
    document_version := row.document_version
    page_number := row.page_start
    start_offset := row.offset_start
    end_offset := row.offset_end
    quote := quote_snippet
      (match citation.quote with
       | some q => if q.isEmpty then row.text else q
       | none => row.text)
    source_uri := row.source_uri }

/-- The loop body of `guardrails.py:normalize_citations`: unmatched
citations are skipped, matched rows are deduplicated by
`(document_id, page_start)` keeping first occurrences. -/
def normalizeCitationsAux (rows : List Row) (seen : List (Str × Option Int)) :
    List CitIn → List CitationOut × List Row
  | [] => ([], [])
  | citation :: rest =>
    match find_matching_row citation rows with
    | none => normalizeCitationsAux rows seen rest
    | some row =>
      let key := (row.document_id, row.page_start)
      if key ∈ seen then normalizeCitationsAux rows seen rest
      else
        let tail := normalizeCitationsAux rows (key :: seen) rest
        (mkCitation row citation :: tail.1, row :: tail.2)

/-- `guardrails.py:normalize_citations`. -/
def normalize_citations (citations : List CitIn) (rows : List Row) :
    List CitationOut × List Row :=
  normalizeCitationsAux rows [] citations

/-- The residue of the pydantic `StrictRagResponse(**payload)` validation
on the typed payload: all field types are enforced by the `Payload`
structure, so only the `Literal` enumerations remain to check. -/
def isValidStrict (p : Payload) : Bool :=
  (p.language = "en".toList || p.language = "ar".toList) &&
    (p.confidence = "high".toList || p.confidence = "medium".toList ||
      p.confidence = "low".toList)

/-- `guardrails.py:validate_or_refuse`. -/
def validate_or_refuse (payload : Payload) (language : Str) : Payload :=
  let language := coerceLang language
  if isValidStrict payload then payload else build_refusal_payload language

/-! The answering pipeline (`answering.py`, `rag.py`, `main.py`).
External I/O outcomes live in an environment record. -/

/-- A transport / timeout error escaping one of the blocking calls
(`httpx` exceptions, `raise_for_status`), identified by its message. -/
abbrev IOErr := Str

/-- Outcome of `json.loads` on the sanitized model output, followed by the
`isinstance(data, dict)` check: a parse failure, a parsed non-object, or a
parsed object carrying `str(data.get("answer", ""))` and
`data.get("citations")` (`none` models an absent or non-list value). -/
inductive ParseOutcome where
  | failure
  | nonDict
  | dict (answer : Str) (citations : Option (List CitIn))

/-- Outcomes of the blocking I/O performed for one request: the embedding
HTTP call (`rag.py:_embed_query`), the vector nearest-neighbor SQL query
(`rag.py:retrieve_chunks`, given the query vector, the allowed document
ids and `top_k`), the generative-model call (`llm.py` providers), and the
standard-library JSON parse. -/
structure Env where
  embedResult : Except IOErr (List ℚ)
  searchResult : List ℚ → List Str → Nat → Except IOErr (List Row)
  generateResult : Except IOErr Str
  parse : Str → ParseOutcome

/-- `answering.py:answer_with_llm`.  `question`, `role_names` and the
conversation history only flow into the prompt text
(`_build_user_prompt` / `get_system_prompt`), which is part of the
generative call the environment abstracts; the returned `meta` dictionary
(chunk ids) is likewise omitted.  The branch structure, in order: empty
retrieval, provider failure, sanitize, parse, refusal-text echo, missing
or empty citations, normalization yielding nothing, empty answer,
assembly, final schema validation. -/
def answer_with_llm (rows : List Row) (question : Str) (language : Str)
    (role_names : List Str) (env : Env) : Payload :=
  let language := coerceLang language
  if rows.isEmpty then build_refusal_payload language
  else
    match env.generateResult with
    | .error _ => build_refusal_payload language
    | .ok raw =>
      let cleaned := sanitizeLLMOutput raw
      match env.parse cleaned with
      | .failure => build_refusal_payload language
      | .nonDict => build_refusal_payload language
      | .dict rawAnswer citationsField =>
        let answer := pstrip rawAnswer
        if answer = REFUSAL_TEXT_EN ∨ answer = REFUSAL_TEXT_AR then
          build_refusal_payload language
        else
          match citationsField with
          | none => build_refusal_payload language
          | some citations =>
            if citations.isEmpty then build_refusal_payload language
            else
              let normalized := normalize_citations citations rows
              if normalized.1.isEmpty then build_refusal_payload language
              else if answer.isEmpty then build_refusal_payload language
              else
                let confidence := compute_confidence normalized.2 normalized.1
                let payload : Payload :=
                  { language := language
                    answer := answer
                    confidence := confidence
                    citations := normalized.1
                    missing_info := translate_missing_info confidence language
                    safe_next_steps := safe_next_steps language }
                validate_or_refuse payload language

/-! The access resolver (`rag.py:get_accessible_document_ids`) over a
relational model of the `documents`, `roles` and `document_acl` tables. -/

/-- A `documents` row (the columns the resolver touches); `access_tags`
is a flat jsonb object modelled as a key-value list. -/
structure Doc where
  id : Str
  status : Str
  access_tags : List (Str × Str)
deriving DecidableEq, Repr

/-- A `roles` row. -/
structure RoleRow where
  id : Str
  name : Str
deriving DecidableEq, Repr

/-- A `document_acl` row. -/
structure AclRow where
  document_id : Str
  role_id : Str
deriving DecidableEq, Repr

/-- The tables read by the resolver. -/
structure AccessDB where
  documents : List Doc
  roles : List RoleRow
  acl : List AclRow
deriving Repr

/-- The jsonb containment `d.access_tags <@ attributes` on flat objects:
every key-value pair of the tags appears among the attributes. -/
def tagsContained (tags : List (Str × Str)) (attributes : List (Str × Str)) : Bool :=
  tags.all (fun p => attributes.contains p)

/-- The ACL join of both resolver queries: some `document_acl` row links
the document to some role whose name is among the supplied role names. -/
def grantedToAny (db : AccessDB) (d : Doc) (role_names : List Str) : Bool :=
  db.acl.any (fun a =>
    a.document_id = d.id &&
      db.roles.any (fun r => r.id = a.role_id && role_names.contains r.name))

/-- `rag.py:get_accessible_document_ids`: fail closed on an empty role
list; with a non-empty attributes mapping run the query with the
`access_tags <@ attributes` condition, otherwise run the query without
any tag condition.  `SELECT DISTINCT` is modelled by `dedup` (first
occurrences kept). -/
def get_accessible_document_ids (db : AccessDB) (role_names : List Str)
    (attributes : List (Str × Str)) : List Str :=
  if role_names.isEmpty then []
  else if ¬attributes.isEmpty then
    ((db.documents.filter (fun d =>
        d.status = "approved".toList && grantedToAny db d role_names &&
          tagsContained d.access_tags attributes)).map Doc.id).dedup
  else
    ((db.documents.filter (fun d =>
        d.status = "approved".toList && grantedToAny db d role_names)).map Doc.id).dedup

/-- `rag.py:retrieve_chunks`: short-circuit on an empty allowed set
before any embedding call; otherwise embed the question (which can raise)
and run the vector query (which can raise). -/
def retrieve_chunks (env : Env) (allowed_doc_ids : List Str) (top_k : Nat) :
    Except IOErr (List Row) :=
  if allowed_doc_ids.isEmpty then .ok []
  else do
    let vec ← env.embedResult
    env.searchResult vec allowed_doc_ids top_k

/-- `rag.py:filter_rows_by_doc_ids`. -/
def filter_rows_by_doc_ids (rows : List Row) (allowed_doc_ids : List Str) :
    List Row :=
  rows.filter (fun row => allowed_doc_ids.contains row.document_id)

/-- `rag.py:filter_rows_by_status`. -/
def filter_rows_by_status (rows : List Row) (status : Str) : List Row :=
  rows.filter (fun row => row.document_status = status)

/-- `rag.py:rerank_chunks` (identity placeholder). -/
def rerank_chunks (rows : List Row) : List Row := rows

/-- A `/rag/answer` request (`schemas.py:RagRequest` with its
`UserContext`); history is omitted as it only feeds prompt text. -/
structure RagRequest where
  question : Str
  language : Str
  top_k : Nat
  role_names : List Str
  attributes : List (Str × Str)

/-- `main.py:answer`: the endpoint body.  An `Except.error` value models
an exception escaping to the web framework (no handler exists in
`main.py`); `Except.ok` models a well-formed response. -/
def answerEndpoint (db : AccessDB) (env : Env) (req : RagRequest) :
    Except IOErr Payload :=
  let allowed_doc_ids := get_accessible_document_ids db req.role_names req.attributes
  do
    let rows ← retrieve_chunks env allowed_doc_ids req.top_k
    let rows := filter_rows_by_doc_ids rows allowed_doc_ids
    let rows := filter_rows_by_status rows "approved".toList
    let reranked := rerank_chunks rows
    .ok (answer_with_llm reranked req.question req.language req.role_names env)

/-! Spec-side reference definitions (written from the words of the spec,
for the refinement claims). -/

/-- Modelled from the spec: `similarity = clamp(1 − d, 0, 1)` (§4.8). -/
def similaritySpec (d : ℚ) : ℚ := max 0 (min 1 (1 - d))

/-- Modelled from the spec: the average similarity over the matched
candidates with a defined distance, `0` if there are none (§4.8). -/
def avgSimilaritySpec (rows : List Row) : ℚ :=
  let sims := rows.filterMap (fun row => row.distance.map similaritySpec)
  if sims = [] then 0 else sims.sum / (sims.length : ℚ)

/-- Modelled from the spec: the confidence rule of §4.8, evaluated in
order, with `low` whenever the citation list is empty. -/
def confidenceSpec (rows : List Row) (citations : List CitationOut) : Str :=
  if citations = [] then "low".toList
  else if 2 ≤ citations.length ∧ (0.7 : ℚ) ≤ avgSimilaritySpec rows then "high".toList
  else if 1 ≤ citations.length ∧ (0.55 : ℚ) ≤ avgSimilaritySpec rows then "medium".toList
  else "low".toList

/-- The order `low < medium < high` on confidence labels. -/
def confidenceLevel (c : Str) : Nat :=
  if c = "high".toList then 2 else if c = "medium".toList then 1 else 0

/-! Helper lemmas about the confidence function. -/

/-- The average of the clamped similarities computed by the loop of
`compute_confidence` (`0` when no distance is defined). -/
def avg_similarity (rows : List Row) : ℚ :=
  let sims := computeSims rows
  if sims.isEmpty then 0 else sims.sum / (sims.length : ℚ)

lemma compute_confidence_char (rows : List Row) (citations : List CitationOut) :
    compute_confidence rows citations =
      if citations.isEmpty then "low".toList
      else if 2 ≤ citations.length ∧ (0.7 : ℚ) ≤ avg_similarity rows then "high".toList
      else if 1 ≤ citations.length ∧ (0.55 : ℚ) ≤ avg_similarity rows then "medium".toList
      else "low".toList := rfl

lemma clamp_step_eq (d : ℚ) :
    (if (if (1 - d : ℚ) < 0 then (0 : ℚ) else 1 - d) > 1 then (1 : ℚ)
      else if (1 - d : ℚ) < 0 then (0 : ℚ) else 1 - d) = max 0 (min 1 (1 - d)) := by
  rcases lt_or_le (1 - d : ℚ) 0 with h | h
  · simp only [if_pos h]
    rw [if_neg (by norm_num), max_eq_left]
    exact le_trans (min_le_right _ _) h.le
  · simp only [if_neg (not_lt.mpr h)]
    rcases lt_or_le (1 : ℚ) (1 - d) with h1 | h1
    · rw [if_pos h1, min_eq_left h1.le, max_eq_right zero_le_one]
    · rw [if_neg (not_lt.mpr h1), min_eq_right h1, max_eq_right h]

lemma computeSims_eq_filterMap (rows : List Row) :
    computeSims rows = rows.filterMap (fun row => row.distance.map similaritySpec) := by
  induction rows with
  | nil => rfl
  | cons row rest ih =>
    rcases hdist : row.distance with _ | d
    · simp [computeSims, List.filterMap_cons, hdist, ih]
    · simp only [computeSims, List.filterMap_cons, hdist, Option.map_some']
      rw [ih]
      congr 1
      exact clamp_step_eq d

/-- Claim C6 — the confidence function equals the reference definition of
spec §4.8: similarity is `clamp(1 − d, 0, 1)`, the average is the mean of
the defined similarities (0 if none), and the label is `high` iff
`count ≥ 2 ∧ avg ≥ 0.70`, else `medium` iff `count ≥ 1 ∧ avg ≥ 0.55`,
else `low`, with `low` whenever the citation list is empty. -/
theorem C6_confidence_equals_reference (rows : List Row)
    (citations : List CitationOut) :
    compute_confidence rows citations = confidenceSpec rows citations := by
  rw [compute_confidence_char]
  unfold confidenceSpec avgSimilaritySpec avg_similarity
  rw [computeSims_eq_filterMap]
  simp [List.isEmpty_iff]

/-- Claim C7 — confidence is monotone: a second input with at least the
citation count and at least the average similarity of the first receives
a confidence label at least as high, under `low < medium < high`. -/
theorem C7_confidence_monotone (rows1 rows2 : List Row)
    (cits1 cits2 : List CitationOut)
    (hcount : cits1.length ≤ cits2.length)
    (havg : avg_similarity rows1 ≤ avg_similarity rows2) :
    confidenceLevel (compute_confidence rows1 cits1) ≤
      confidenceLevel (compute_confidence rows2 cits2) := by
  rw [compute_confidence_char, compute_confidence_char]
  by_cases h1 : cits1.isEmpty
  · simp only [if_pos h1]
    have : confidenceLevel ("low".toList) = 0 := by decide
    rw [this]
    exact Nat.zero_le _
  · have h2 : ¬cits2.isEmpty := by
      intro h
      refine h1 ?_
      have : cits2.length = 0 := by simpa [List.isEmpty_iff, List.length_eq_zero] using h
      have : cits1.length = 0 := Nat.le_antisymm (this ▸ hcount) (Nat.zero_le _)
      simpa [List.isEmpty_iff, List.length_eq_zero] using this
    rw [if_neg h1, if_neg h2]
    by_cases hhigh : 2 ≤ cits1.length ∧ (0.7 : ℚ) ≤ avg_similarity rows1
    · have hhigh2 : 2 ≤ cits2.length ∧ (0.7 : ℚ) ≤ avg_similarity rows2 :=
        ⟨le_trans hhigh.1 hcount, le_trans hhigh.2 havg⟩
      rw [if_pos hhigh, if_pos hhigh2]
    · rw [if_neg hhigh]
      by_cases hmed : 1 ≤ cits1.length ∧ (0.55 : ℚ) ≤ avg_similarity rows1
      · have hmed2 : 1 ≤ cits2.length ∧ (0.55 : ℚ) ≤ avg_similarity rows2 :=
          ⟨le_trans hmed.1 hcount, le_trans hmed.2 havg⟩
        rw [if_pos hmed]
        by_cases hhigh2 : 2 ≤ cits2.length ∧ (0.7 : ℚ) ≤ avg_similarity rows2
        · rw [if_pos hhigh2]; decide
        · rw [if_neg hhigh2, if_pos hmed2]
      · rw [if_neg hmed]
        have : confidenceLevel ("low".toList) = 0 := by decide
        rw [this]
        exact Nat.zero_le _

/-- A sample row with a defined retrieval distance. -/
def sampleRow : Row :=
  { chunk_id := "11111111-1111-1111-1111-111111111111".toList
    text := "KIB offers personal savings accounts with monthly statements.".toList
    page_start := some 2
    page_end := some 2
    «section» := none
    offset_start := some 10
    offset_end := some 60
    document_version_id := "dv-1".toList
    document_version := "v1".toList
    document_id := "doc-1".toList
    document_title := "Savings Policy".toList
    document_status := "approved".toList
    source_uri := "/docs/savings.pdf".toList
    distance := some (0.2 : ℚ) }

/-- A sample output citation (as normalization would build from
`sampleRow`). -/
def sampleCitationOut : CitationOut :=
  { doc_title := "Savings Policy".toList
    doc_id := "doc-1".toList
    document_version := "v1".toList
    page_number := some 2
    start_offset := some 10
    end_offset := some 60
    quote := "KIB offers personal savings accounts with monthly statements.".toList
    source_uri := "/docs/savings.pdf".toList }

theorem C7_confidence_monotone_witness :
    [sampleCitationOut].length ≤ [sampleCitationOut, sampleCitationOut].length ∧
      avg_similarity [sampleRow] ≤ avg_similarity [sampleRow, sampleRow] ∧
      confidenceLevel (compute_confidence [sampleRow] [sampleCitationOut]) ≤
        confidenceLevel (compute_confidence [sampleRow, sampleRow]
          [sampleCitationOut, sampleCitationOut]) :=
  ⟨by decide, by norm_num [avg_similarity, computeSims, sampleRow],
    C7_confidence_monotone [sampleRow] [sampleRow, sampleRow] [sampleCitationOut]
      [sampleCitationOut, sampleCitationOut] (by decide)
      (by norm_num [avg_similarity, computeSims, sampleRow])⟩

/-! Claim C2 — the access resolver. -/

/-- An approved document carrying a non-empty access-tag requirement,
granted to role `staff`. -/
def taggedDoc : Doc :=
  { id := "d1".toList
    status := "approved".toList
    access_tags := [("dept".toList, "hr".toList)] }

def exampleAccessDB : AccessDB :=
  { documents := [taggedDoc]
    roles := [{ id := "r1".toList, name := "staff".toList }]
    acl := [{ document_id := "d1".toList, role_id := "r1".toList }] }

/-- Claim C2 counterexample — the claim says a document with a non-empty
access-tag requirement is excluded when the caller supplies no
attributes; but with an empty attributes mapping the resolver runs the
query without any tag condition, so the tagged document is returned even
though its requirement is not a subset of the empty mapping. -/
theorem C2_counterexample_empty_attributes :
    get_accessible_document_ids exampleAccessDB ["staff".toList] []
        = ["d1".toList] ∧
      taggedDoc.access_tags ≠ [] ∧
      ¬ (∀ p ∈ taggedDoc.access_tags, p ∈ ([] : List (Str × Str))) := by
  refine ⟨by decide, by decide, ?_⟩
  intro h
  exact absurd (h ("dept".toList, "hr".toList) (by decide)) (by decide)

/-- Claim C2 (amended) — for a non-empty role set, the resolver returns
exactly the ids of approved documents granted to at least one supplied
role whose access-tag mapping is contained in the caller's attributes,
except that when the caller supplies an empty attributes mapping the tag
requirement is not checked at all (every granted approved document
passes). -/
lemma grantedToAny_iff (db : AccessDB) (d : Doc) (ns : List Str) :
    grantedToAny db d ns = true ↔
      ∃ a ∈ db.acl, a.document_id = d.id ∧
        ∃ r ∈ db.roles, r.id = a.role_id ∧ r.name ∈ ns := by
  simp [grantedToAny, List.any_eq_true, List.elem_iff, and_assoc]

lemma tagsContained_iff (tags attrs : List (Str × Str)) :
    tagsContained tags attrs = true ↔ ∀ p ∈ tags, p ∈ attrs := by
  simp [tagsContained, List.all_eq_true, List.elem_iff]

theorem C2_access_resolver_membership (db : AccessDB) (role_names : List Str)
    (attributes : List (Str × Str)) (x : Str) (hroles : role_names ≠ []) :
    x ∈ get_accessible_document_ids db role_names attributes ↔
      ∃ d ∈ db.documents, d.id = x ∧ d.status = "approved".toList ∧
        (∃ a ∈ db.acl, a.document_id = d.id ∧
          ∃ r ∈ db.roles, r.id = a.role_id ∧ r.name ∈ role_names) ∧
        (attributes = [] ∨ ∀ p ∈ d.access_tags, p ∈ attributes) := by
  unfold get_accessible_document_ids
  rw [if_neg (by simpa [List.isEmpty_iff] using hroles)]
  by_cases hattr : attributes = []
  · subst hattr
    simp only [List.isEmpty_nil, not_true_eq_false, if_false, List.mem_dedup,
      List.mem_map, List.mem_filter, Bool.and_eq_true, decide_eq_true_eq,
      grantedToAny_iff]
    constructor
    · rintro ⟨d, ⟨hd, hstat, hgrant⟩, hid⟩
      exact ⟨d, hd, hid, hstat, hgrant, Or.inl (by trivial)⟩
    · rintro ⟨d, hd, hid, hstat, hgrant, -⟩
      exact ⟨d, ⟨hd, hstat, hgrant⟩, hid⟩
  · rw [if_pos (by simpa [List.isEmpty_iff] using hattr)]
    simp only [List.mem_dedup, List.mem_map, List.mem_filter, Bool.and_eq_true,
      decide_eq_true_eq, tagsContained_iff, grantedToAny_iff]
    constructor
    · rintro ⟨d, ⟨hd, ⟨hstat, hgrant⟩, htags⟩, hid⟩
      exact ⟨d, hd, hid, hstat, hgrant, Or.inr htags⟩
    · rintro ⟨d, hd, hid, hstat, hgrant, htags | htags⟩
      · exact absurd htags hattr
      · exact ⟨d, ⟨hd, ⟨hstat, hgrant⟩, htags⟩, hid⟩

theorem C2_access_resolver_membership_witness :
    (["staff".toList] : List Str) ≠ [] ∧
      ("d1".toList ∈ get_accessible_document_ids exampleAccessDB ["staff".toList]
          [("dept".toList, "hr".toList)] ↔
        ∃ d ∈ exampleAccessDB.documents, d.id = "d1".toList ∧
          d.status = "approved".toList ∧
          (∃ a ∈ exampleAccessDB.acl, a.document_id = d.id ∧
            ∃ r ∈ exampleAccessDB.roles, r.id = a.role_id ∧
              r.name ∈ (["staff".toList] : List Str)) ∧
          ([("dept".toList, "hr".toList)] = [] ∨
            ∀ p ∈ d.access_tags, p ∈ [("dept".toList, "hr".toList)])) :=
  ⟨by decide,
    C2_access_resolver_membership exampleAccessDB ["staff".toList]
      [("dept".toList, "hr".toList)] "d1".toList (by decide)⟩

/-! Helper lemmas on citation normalization and the pipeline branches. -/

lemma find_matching_row_mem {citation : CitIn} {rows : List Row} {row : Row}
    (h : find_matching_row citation rows = some row) : row ∈ rows := by
  unfold find_matching_row at h
  rcases h1 : rows.find? (fun r =>
      r.document_id = citation.doc_id && r.page_start = citation.page_number) with _ | r
  · rw [h1] at h
    exact List.mem_of_find?_eq_some h
  · rw [h1] at h
    cases h
    exact List.mem_of_find?_eq_some h1

lemma normalizeCitationsAux_mem {rows : List Row} {c : CitationOut} :
    ∀ {cits : List CitIn} {seen : List (Str × Option Int)},
      c ∈ (normalizeCitationsAux rows seen cits).1 →
      ∃ row citation, row ∈ rows ∧ c = mkCitation row citation := by
  intro cits
  induction cits with
  | nil => intro seen h; simp [normalizeCitationsAux] at h
  | cons citation rest ih =>
    intro seen h
    unfold normalizeCitationsAux at h
    rcases hfind : find_matching_row citation rows with _ | row
    · simp only [hfind] at h
      exact ih h
    · simp only [hfind] at h
      by_cases hseen : (row.document_id, row.page_start) ∈ seen
      · rw [if_pos hseen] at h
        exact ih h
      · rw [if_neg hseen] at h
        rcases List.mem_cons.mp h with hc | hc
        · exact ⟨row, citation, find_matching_row_mem hfind, hc⟩
        · exact ih hc

lemma coerceLang_cases (l : Str) :
    coerceLang l = "en".toList ∨ coerceLang l = "ar".toList := by
  unfold coerceLang
  by_cases h : l = "ar".toList
  · rw [if_pos h]; right; rfl
  · rw [if_neg h]; left; rfl

lemma coerceLang_idem (l : Str) : coerceLang (coerceLang l) = coerceLang l := by
  rcases coerceLang_cases l with h | h <;> rw [h] <;> decide

lemma compute_confidence_cases (rows : List Row) (cits : List CitationOut) :
    compute_confidence rows cits = "high".toList ∨
      compute_confidence rows cits = "medium".toList ∨
      compute_confidence rows cits = "low".toList := by
  rw [compute_confidence_char]
  split_ifs <;> simp

lemma isValidStrict_assembled (lang : Str) (p : Payload)
    (hl : p.language = coerceLang lang)
    (hc : p.confidence = "high".toList ∨ p.confidence = "medium".toList ∨
      p.confidence = "low".toList) :
    isValidStrict p = true := by
  unfold isValidStrict
  rcases coerceLang_cases lang with h | h <;>
    rcases hc with hc | hc | hc <;>
      simp [hl, h, hc]

/-- Branch analysis of `answer_with_llm`: the result is either the
canonical refusal for the coerced language, or the assembled payload
built from some citation list returned by the model. -/
lemma answer_with_llm_cases (rows : List Row) (q lang : Str)
    (roles : List Str) (env : Env) :
    answer_with_llm rows q lang roles env = build_refusal_payload (coerceLang lang) ∨
    ∃ ans cits,
      answer_with_llm rows q lang roles env =
        { language := coerceLang lang
          answer := ans
          confidence := compute_confidence (normalize_citations cits rows).2
            (normalize_citations cits rows).1
          citations := (normalize_citations cits rows).1
          missing_info := translate_missing_info
            (compute_confidence (normalize_citations cits rows).2
              (normalize_citations cits rows).1) (coerceLang lang)
          safe_next_steps := safe_next_steps (coerceLang lang) } := by
  simp only [answer_with_llm]
  by_cases h0 : rows.isEmpty
  · rw [if_pos h0]; left; rfl
  · rw [if_neg h0]
    rcases hgen : env.generateResult with e | raw
    · simp only [hgen]; left; trivial
    · simp only [hgen]
      rcases hparse : env.parse (sanitizeLLMOutput raw) with _ | _ |
        ⟨rawAnswer, citationsField⟩
      · simp only [hparse]; left; trivial
      · simp only [hparse]; left; trivial
      · simp only [hparse]
        by_cases href : pstrip rawAnswer = REFUSAL_TEXT_EN ∨
            pstrip rawAnswer = REFUSAL_TEXT_AR
        · rw [if_pos href]; left; rfl
        · rw [if_neg href]
          rcases citationsField with _ | cits
          · left; rfl
          · simp only []
            by_cases hempty : cits.isEmpty
            · rw [if_pos hempty]; left; rfl
            · rw [if_neg hempty]
              by_cases hnorm : (normalize_citations cits rows).1.isEmpty
              · rw [if_pos hnorm]; left; rfl
              · rw [if_neg hnorm]
                by_cases hans : (pstrip rawAnswer).isEmpty
                · rw [if_pos hans]; left; rfl
                · rw [if_neg hans]
                  right
                  refine ⟨pstrip rawAnswer, cits, ?_⟩
                  unfold validate_or_refuse
                  rw [if_pos (isValidStrict_assembled lang _ rfl
                    (compute_confidence_cases _ _))]

/-! Claim C4 — no fabricated citations. -/

/-- Claim C4 — every citation in any payload returned by the answering
pipeline copies `doc_id`, `document_version`, `page_number`, both
offsets, and `source_uri` exactly from some chunk in the candidate row
list passed to the validator (refusal payloads carry no citations, so
the property holds for every returned payload). -/
theorem C4_no_fabricated_citations (rows : List Row) (q lang : Str)
    (roles : List Str) (env : Env) (c : CitationOut)
    (hc : c ∈ (answer_with_llm rows q lang roles env).citations) :
    ∃ row ∈ rows, c.doc_id = row.document_id ∧
      c.document_version = row.document_version ∧
      c.page_number = row.page_start ∧
      c.start_offset = row.offset_start ∧
      c.end_offset = row.offset_end ∧
      c.source_uri = row.source_uri := by
  rcases answer_with_llm_cases rows q lang roles env with h | ⟨ans, cits, h⟩
  · rw [h] at hc
    exact absurd hc (List.not_mem_nil c)
  · rw [h] at hc
    replace hc : c ∈ (normalize_citations cits rows).1 := hc
    obtain ⟨row, citation, hrow, hceq⟩ := normalizeCitationsAux_mem hc
    subst hceq
    exact ⟨row, hrow, rfl, rfl, rfl, rfl, rfl, rfl⟩

/-- A candidate row with no defined distance (used to instantiate
pipeline theorems on concrete inputs). -/
def plainRow : Row :=
  { chunk_id := "22222222-2222-2222-2222-222222222222".toList
    text := "KIB offers personal savings accounts.".toList
    page_start := some 2
    page_end := some 2
    «section» := none
    offset_start := some 10
    offset_end := some 60
    document_version_id := "dv-1".toList
    document_version := "v1".toList
    document_id := "doc-1".toList
    document_title := "Savings Policy".toList
    document_status := "approved".toList
    source_uri := "/docs/savings.pdf".toList
    distance := none }

/-- A model citation matching `plainRow` by document id and page. -/
def matchingCitIn : CitIn :=
  { doc_id := "doc-1".toList
    page_number := some 2
    quote := some "KIB offers personal savings accounts.".toList }

/-- A model citation whose document id matches no candidate row. -/
def unmatchedCitIn : CitIn :=
  { doc_id := "doc-999".toList
    page_number := some 2
    quote := some "KIB offers personal savings accounts.".toList }

/-- An environment whose generative call succeeds and whose JSON parse
yields a well-shaped object with the given citations. -/
def dictEnv (cits : List CitIn) : Env :=
  { embedResult := .ok []
    searchResult := fun _ _ _ => .ok []
    generateResult := .ok "raw".toList
    parse := fun _ => .dict "An answer.".toList (some cits) }

/-- Evaluation of `answer_with_llm` along the fully successful path: when
retrieval is non-empty, generation succeeds, the parse yields a dict
whose answer is neither refusal text nor empty and whose citations
normalize to a non-empty list, the result is the assembled payload. -/
lemma answer_with_llm_dict_eval (rows : List Row) (q lang : Str)
    (roles : List Str) (env : Env) (raw ans : Str) (cits : List CitIn)
    (h0 : rows.isEmpty = false)
    (hgen : env.generateResult = .ok raw)
    (hparse : env.parse (sanitizeLLMOutput raw) = .dict ans (some cits))
    (href : ¬(pstrip ans = REFUSAL_TEXT_EN ∨ pstrip ans = REFUSAL_TEXT_AR))
    (hcits : cits.isEmpty = false)
    (hnorm : (normalize_citations cits rows).1.isEmpty = false)
    (hans : (pstrip ans).isEmpty = false) :
    answer_with_llm rows q lang roles env =
      { language := coerceLang lang
        answer := pstrip ans
        confidence := compute_confidence (normalize_citations cits rows).2
          (normalize_citations cits rows).1
        citations := (normalize_citations cits rows).1
        missing_info := translate_missing_info
          (compute_confidence (normalize_citations cits rows).2
            (normalize_citations cits rows).1) (coerceLang lang)
        safe_next_steps := safe_next_steps (coerceLang lang) } := by
  simp only [answer_with_llm]
  rw [if_neg (by simp [h0])]
  simp only [hgen, hparse]
  rw [if_neg href, if_neg (by simp [hcits]), if_neg (by simp [hnorm]),
    if_neg (by simp [hans])]
  unfold validate_or_refuse
  rw [if_pos (isValidStrict_assembled lang _ rfl (compute_confidence_cases _ _))]

theorem C4_no_fabricated_citations_witness :
    mkCitation plainRow matchingCitIn ∈
        (answer_with_llm [plainRow] "q".toList "en".toList []
          (dictEnv [matchingCitIn])).citations ∧
      ∃ row ∈ [plainRow],
        (mkCitation plainRow matchingCitIn).doc_id = row.document_id ∧
        (mkCitation plainRow matchingCitIn).document_version = row.document_version ∧
        (mkCitation plainRow matchingCitIn).page_number = row.page_start ∧
        (mkCitation plainRow matchingCitIn).start_offset = row.offset_start ∧
        (mkCitation plainRow matchingCitIn).end_offset = row.offset_end ∧
        (mkCitation plainRow matchingCitIn).source_uri = row.source_uri := by
  have hc : mkCitation plainRow matchingCitIn ∈
      (answer_with_llm [plainRow] "q".toList "en".toList []
        (dictEnv [matchingCitIn])).citations := by
    rw [answer_with_llm_dict_eval [plainRow] "q".toList "en".toList []
      (dictEnv [matchingCitIn]) "raw".toList "An answer.".toList [matchingCitIn]
      (by decide) rfl rfl (by decide) (by decide) (by decide) (by decide)]
    decide
  exact ⟨hc,
    C4_no_fabricated_citations [plainRow] "q".toList "en".toList []
      (dictEnv [matchingCitIn]) (mkCitation plainRow matchingCitIn) hc⟩

/-! Claim C9 — quote length bound.  Lemmas about Python word splitting. -/

lemma wordsAux_append_nonws (w : Str) (hw : ∀ ch ∈ w, isPyWs ch = false) :
    ∀ (s acc : Str), wordsAux (w ++ s) acc = wordsAux s (w.reverse ++ acc) := by
  induction w with
  | nil => intro s acc; rfl
  | cons c w' ih =>
    intro s acc
    have hc : isPyWs c = false := hw c (List.mem_cons_self c w')
    have hw' : ∀ ch ∈ w', isPyWs ch = false := fun ch h =>
      hw ch (List.mem_cons_of_mem c h)
    simp only [List.cons_append, wordsAux]
    rw [if_neg (by simp [hc])]
    have h2 : (c :: w').reverse ++ acc = w'.reverse ++ (c :: acc) := by simp
    rw [h2]
    exact ih hw' s (c :: acc)

lemma wordsAux_good : ∀ (s acc : Str), (∀ ch ∈ acc, isPyWs ch = false) →
    ∀ w ∈ wordsAux s acc, w ≠ [] ∧ ∀ ch ∈ w, isPyWs ch = false := by
  intro s
  induction s with
  | nil =>
    intro acc hacc w hw
    unfold wordsAux at hw
    by_cases hae : acc.isEmpty
    · rw [if_pos hae] at hw
      exact absurd hw (List.not_mem_nil w)
    · rw [if_neg hae] at hw
      rcases List.mem_singleton.mp hw with rfl
      refine ⟨by simpa [List.isEmpty_iff] using hae, ?_⟩
      intro ch hch
      exact hacc ch (List.mem_reverse.mp hch)
  | cons c rest ih =>
    intro acc hacc w hw
    unfold wordsAux at hw
    by_cases hc : isPyWs c
    · rw [if_pos hc] at hw
      by_cases hae : acc.isEmpty
      · rw [if_pos hae] at hw
        exact ih [] (by simp) w hw
      · rw [if_neg hae] at hw
        rcases List.mem_cons.mp hw with rfl | h
        · refine ⟨by simpa [List.isEmpty_iff] using hae, ?_⟩
          intro ch hch
          exact hacc ch (List.mem_reverse.mp hch)
        · exact ih [] (by simp) w h
    · rw [if_neg hc] at hw
      refine ih (c :: acc) ?_ w hw
      intro ch hch
      rcases List.mem_cons.mp hch with rfl | h
      · simpa using hc
      · exact hacc ch h

lemma pySplit_good (s : Str) :
    ∀ w ∈ pySplit s, w ≠ [] ∧ ∀ ch ∈ w, isPyWs ch = false :=
  wordsAux_good s [] (by simp)

lemma pySplit_joinSpace :
    ∀ (ws : List Str), (∀ w ∈ ws, w ≠ [] ∧ ∀ ch ∈ w, isPyWs ch = false) →
      pySplit (joinSpace ws) = ws := by
  intro ws
  induction ws with
  | nil => intro _; rfl
  | cons w rest ih =>
    intro hws
    obtain ⟨hne, hgood⟩ := hws w (List.mem_cons_self w rest)
    rcases rest with _ | ⟨w', rest'⟩
    · show pySplit w = [w]
      unfold pySplit
      have hstep : wordsAux w [] = wordsAux ([] : Str) (w.reverse ++ []) := by
        conv_lhs => rw [← List.append_nil w]
        exact wordsAux_append_nonws w hgood [] []
      rw [hstep, List.append_nil]
      unfold wordsAux
      rw [if_neg (by simpa [List.isEmpty_iff] using hne)]
      simp
    · have hrest : ∀ u ∈ w' :: rest', u ≠ [] ∧ ∀ ch ∈ u, isPyWs ch = false :=
        fun u hu => hws u (List.mem_cons_of_mem w hu)
      show pySplit (w ++ ' ' :: joinSpace (w' :: rest')) = w :: w' :: rest'
      unfold pySplit
      rw [wordsAux_append_nonws w hgood (' ' :: joinSpace (w' :: rest')) [],
        List.append_nil]
      unfold wordsAux
      rw [if_pos (by decide), if_neg (by simpa [List.isEmpty_iff] using hne)]
      rw [List.reverse_reverse]
      exact congrArg (w :: ·) (ih hrest)

lemma pySplit_truncate_words (t : Str) (m : Nat) :
    (pySplit (truncate_words t m)).length ≤ m := by
  unfold truncate_words
  by_cases h : (pySplit (pstrip t)).length ≤ m
  · rw [if_pos h]; exact h
  · rw [if_neg h]
    rw [pySplit_joinSpace ((pySplit (pstrip t)).take m)
      (fun w hw => pySplit_good (pstrip t) w (List.take_subset m _ hw))]
    rw [List.length_take]
    exact min_le_left m _

lemma quote_snippet_bound (t : Str) : (pySplit (quote_snippet t)).length ≤ 25 :=
  pySplit_truncate_words _ 25

/-- Claim C9 — every citation in any payload returned by the answering
pipeline has a quote of at most 25 whitespace-separated words, whether
the quote came from the model or from the chunk text. -/
theorem C9_quote_word_bound (rows : List Row) (q lang : Str)
    (roles : List Str) (env : Env) (c : CitationOut)
    (hc : c ∈ (answer_with_llm rows q lang roles env).citations) :
    (pySplit c.quote).length ≤ 25 := by
  rcases answer_with_llm_cases rows q lang roles env with h | ⟨ans, cits, h⟩
  · rw [h] at hc
    exact absurd hc (List.not_mem_nil c)
  · rw [h] at hc
    replace hc : c ∈ (normalize_citations cits rows).1 := hc
    obtain ⟨row, citation, hrow, hceq⟩ := normalizeCitationsAux_mem hc
    subst hceq
    exact quote_snippet_bound _

theorem C9_quote_word_bound_witness :
    mkCitation plainRow matchingCitIn ∈
        (answer_with_llm [plainRow] "q".toList "en".toList []
          (dictEnv [matchingCitIn])).citations ∧
      (pySplit (mkCitation plainRow matchingCitIn).quote).length ≤ 25 := by
  have hc : mkCitation plainRow matchingCitIn ∈
      (answer_with_llm [plainRow] "q".toList "en".toList []
        (dictEnv [matchingCitIn])).citations := by
    rw [answer_with_llm_dict_eval [plainRow] "q".toList "en".toList []
      (dictEnv [matchingCitIn]) "raw".toList "An answer.".toList [matchingCitIn]
      (by decide) rfl rfl (by decide) (by decide) (by decide) (by decide)]
    decide
  exact ⟨hc,
    C9_quote_word_bound [plainRow] "q".toList "en".toList []
      (dictEnv [matchingCitIn]) (mkCitation plainRow matchingCitIn) hc⟩

/-! Claims C5 and C3 — endpoint-level behavior. -/

/-- Claim C5 — fail closed on empty roles: the resolver returns the empty
id set (not an error), retrieval short-circuits, and the endpoint answers
with the canonical refusal, whose citations are empty and whose
confidence is low. -/
theorem C5_fail_closed_empty_roles (db : AccessDB) (env : Env)
    (req : RagRequest) (hroles : req.role_names = []) :
    get_accessible_document_ids db req.role_names req.attributes = [] ∧
      answerEndpoint db env req =
        .ok (build_refusal_payload (coerceLang req.language)) ∧
      (build_refusal_payload (coerceLang req.language)).citations = [] ∧
      (build_refusal_payload (coerceLang req.language)).confidence =
        "low".toList := by
  have hacc : get_accessible_document_ids db req.role_names req.attributes = [] := by
    unfold get_accessible_document_ids
    rw [if_pos (by simp [hroles])]
  refine ⟨hacc, ?_, rfl, rfl⟩
  simp only [answerEndpoint]
  rw [hacc]
  rfl

/-- A request from a caller holding the `staff` role and no attributes. -/
def staffReq : RagRequest :=
  { question := "What is offered?".toList
    language := "en".toList
    top_k := 5
    role_names := ["staff".toList]
    attributes := [] }

/-- A request with no roles at all. -/
def emptyRolesReq : RagRequest :=
  { question := "What is the fee?".toList
    language := "en".toList
    top_k := 5
    role_names := []
    attributes := [] }

theorem C5_fail_closed_empty_roles_witness :
    emptyRolesReq.role_names = [] ∧
      (get_accessible_document_ids exampleAccessDB emptyRolesReq.role_names
          emptyRolesReq.attributes = [] ∧
        answerEndpoint exampleAccessDB (dictEnv []) emptyRolesReq =
          .ok (build_refusal_payload (coerceLang emptyRolesReq.language)) ∧
        (build_refusal_payload (coerceLang emptyRolesReq.language)).citations = [] ∧
        (build_refusal_payload (coerceLang emptyRolesReq.language)).confidence =
          "low".toList) :=
  ⟨rfl, C5_fail_closed_empty_roles exampleAccessDB (dictEnv []) emptyRolesReq rfl⟩

/-- An environment whose embedding call raises a transport error. -/
def embedFailEnv : Env :=
  { embedResult := .error "timeout".toList
    searchResult := fun _ _ _ => .ok []
    generateResult := .error "unreachable".toList
    parse := fun _ => .failure }

/-- Claim C3 counterexample — a timeout raised by the embedding call
escapes the endpoint as an exception (`main.py:answer` wraps none of the
retrieval calls in a handler), so the caller does not receive a
well-formed payload: the claim that every transport error at the
embedding, search, or generation step is converted to the refusal is
false. -/
theorem C3_counterexample_embed_error_escapes :
    answerEndpoint exampleAccessDB embedFailEnv staffReq =
        .error "timeout".toList ∧
      ∀ p : Payload, answerEndpoint exampleAccessDB embedFailEnv staffReq ≠ .ok p := by
  refine ⟨rfl, ?_⟩
  intro p h
  rw [show answerEndpoint exampleAccessDB embedFailEnv staffReq =
    .error "timeout".toList from rfl] at h
  exact Except.noConfusion h

lemma answer_with_llm_gen_error (rows : List Row) (q lang : Str)
    (roles : List Str) (env : Env) (e : IOErr)
    (hgen : env.generateResult = .error e) :
    answer_with_llm rows q lang roles env =
      build_refusal_payload (coerceLang lang) := by
  simp only [answer_with_llm]
  by_cases h0 : rows.isEmpty
  · rw [if_pos h0]
  · rw [if_neg h0]
    simp only [hgen]

/-- Claim C3 (amended) — a timeout or transport error at the
generative-model call is caught inside the pipeline and converted into
the canonical refusal, and when the embedding call and the vector query
succeed the endpoint always returns a well-formed payload; errors at the
embedding call or the vector query, by contrast, propagate to the caller
(see the counterexample). -/
theorem C3_generate_errors_caught (db : AccessDB) (env : Env)
    (req : RagRequest) (vec : List ℚ) (rows : List Row)
    (hembed : env.embedResult = .ok vec)
    (hsearch : env.searchResult vec
      (get_accessible_document_ids db req.role_names req.attributes)
      req.top_k = .ok rows) :
    (∃ p : Payload, answerEndpoint db env req = .ok p) ∧
      (∀ e, env.generateResult = .error e →
        answerEndpoint db env req =
          .ok (build_refusal_payload (coerceLang req.language))) := by
  have hret : retrieve_chunks env
      (get_accessible_document_ids db req.role_names req.attributes) req.top_k =
        .ok (if (get_accessible_document_ids db req.role_names
            req.attributes).isEmpty then [] else rows) := by
    unfold retrieve_chunks
    by_cases hemp : (get_accessible_document_ids db req.role_names
        req.attributes).isEmpty
    · rw [if_pos hemp, if_pos hemp]
    · rw [if_neg hemp, if_neg hemp]
      rw [hembed]
      simpa using hsearch
  constructor
  · simp only [answerEndpoint]
    rw [hret]
    exact ⟨_, rfl⟩
  · intro e hgen
    simp only [answerEndpoint]
    rw [hret]
    show Except.ok (answer_with_llm _ _ _ _ _) = _
    rw [answer_with_llm_gen_error _ _ _ _ _ e hgen]

/-- An environment where embedding and search succeed but the generative
call times out. -/
def genFailEnv : Env :=
  { embedResult := .ok []
    searchResult := fun _ _ _ => .ok [plainRow]
    generateResult := .error "timeout".toList
    parse := fun _ => .failure }

theorem C3_generate_errors_caught_witness :
    genFailEnv.embedResult = .ok [] ∧
      genFailEnv.searchResult []
        (get_accessible_document_ids exampleAccessDB staffReq.role_names
          staffReq.attributes) staffReq.top_k = .ok [plainRow] ∧
      (∃ p : Payload, answerEndpoint exampleAccessDB genFailEnv staffReq = .ok p) ∧
      (∀ e, genFailEnv.generateResult = .error e →
        answerEndpoint exampleAccessDB genFailEnv staffReq =
          .ok (build_refusal_payload (coerceLang staffReq.language))) :=
  ⟨rfl, rfl,
    (C3_generate_errors_caught exampleAccessDB genFailEnv staffReq [] [plainRow]
      rfl rfl).1,
    (C3_generate_errors_caught exampleAccessDB genFailEnv staffReq [] [plainRow]
      rfl rfl).2⟩

/-! Claim C1 — citation matching policy. -/

lemma normalizeCitationsAux_all_unmatched (rows : List Row) :
    ∀ (cits : List CitIn) (seen : List (Str × Option Int)),
      (∀ c ∈ cits, find_matching_row c rows = none) →
      normalizeCitationsAux rows seen cits = ([], []) := by
  intro cits
  induction cits with
  | nil => intro seen _; rfl
  | cons citation rest ih =>
    intro seen hall
    unfold normalizeCitationsAux
    simp only [hall citation (List.mem_cons_self citation rest)]
    exact ih seen (fun c hc => hall c (List.mem_cons_of_mem citation hc))

lemma normalizeCitationsAux_filter_matched (rows : List Row) :
    ∀ (cits : List CitIn) (seen : List (Str × Option Int)),
      normalizeCitationsAux rows seen
          (cits.filter (fun c => (find_matching_row c rows).isSome)) =
        normalizeCitationsAux rows seen cits := by
  intro cits
  induction cits with
  | nil => intro seen; rfl
  | cons citation rest ih =>
    intro seen
    rcases hfind : find_matching_row citation rows with _ | row
    · rw [List.filter_cons_of_neg (by simp [hfind])]
      conv_rhs => unfold normalizeCitationsAux
      simp only [hfind]
      exact ih seen
    · rw [List.filter_cons_of_pos (by simp [hfind])]
      conv_lhs => unfold normalizeCitationsAux
      conv_rhs => unfold normalizeCitationsAux
      simp only [hfind]
      by_cases hseen : (row.document_id, row.page_start) ∈ seen
      · rw [if_pos hseen, if_pos hseen]
        exact ih seen
      · rw [if_neg hseen, if_neg hseen]
        rw [ih ((row.document_id, row.page_start) :: seen)]

/-- Claim C1 (amended) — the citation policy is lenient, not strict: a
citation that matches no retrieved candidate is silently dropped during
normalization (filtering the unmatched citations away leaves the result
unchanged), and the whole response is refused only when no citation at
all matches a candidate. -/
theorem C1_unmatched_citations_dropped (rows : List Row) (q lang : Str)
    (roles : List Str) (env : Env) (raw ans : Str) (cits : List CitIn)
    (hgen : env.generateResult = .ok raw)
    (hparse : env.parse (sanitizeLLMOutput raw) = .dict ans (some cits))
    (hall : ∀ c ∈ cits, find_matching_row c rows = none) :
    answer_with_llm rows q lang roles env =
        build_refusal_payload (coerceLang lang) ∧
      ∀ (cits' : List CitIn) (rows' : List Row),
        normalize_citations
            (cits'.filter (fun c => (find_matching_row c rows').isSome)) rows' =
          normalize_citations cits' rows' := by
  constructor
  · simp only [answer_with_llm]
    by_cases h0 : rows.isEmpty
    · rw [if_pos h0]
    · rw [if_neg h0]
      simp only [hgen, hparse]
      by_cases href : pstrip ans = REFUSAL_TEXT_EN ∨ pstrip ans = REFUSAL_TEXT_AR
      · rw [if_pos href]
      · rw [if_neg href]
        by_cases hcits : cits.isEmpty
        · rw [if_pos hcits]
        · rw [if_neg hcits]
          have hnorm : normalize_citations cits rows = ([], []) :=
            normalizeCitationsAux_all_unmatched rows cits [] hall
          rw [if_pos (by simp [hnorm])]
  · intro cits' rows'
    exact normalizeCitationsAux_filter_matched rows' cits' []

/-- An environment whose parse yields one matching and one unmatched
citation. -/
def mixedEnv : Env := dictEnv [matchingCitIn, unmatchedCitIn]

/-- An environment whose parse yields only unmatched citations. -/
def unmatchedEnv : Env := dictEnv [unmatchedCitIn]

/-- Claim C1 counterexample — strictness fails: with one matching and one
unmatched citation in the same model response, the pipeline does not
refuse; it drops the unmatched citation and returns an accepted payload
containing exactly the matched one. -/
theorem C1_counterexample_mixed_citations :
    find_matching_row matchingCitIn [plainRow] = some plainRow ∧
      find_matching_row unmatchedCitIn [plainRow] = none ∧
      (answer_with_llm [plainRow] "q".toList "en".toList []
          mixedEnv).citations.length = 1 ∧
      answer_with_llm [plainRow] "q".toList "en".toList [] mixedEnv ≠
        build_refusal_payload "en".toList := by
  have heval := answer_with_llm_dict_eval [plainRow] "q".toList "en".toList []
    mixedEnv "raw".toList "An answer.".toList [matchingCitIn, unmatchedCitIn]
    (by decide) rfl rfl (by decide) (by decide) (by decide) (by decide)
  refine ⟨by decide, by decide, ?_, ?_⟩
  · rw [heval]; decide
  · rw [heval]
    intro h
    exact absurd (congrArg Payload.answer h) (by decide)

theorem C1_unmatched_citations_dropped_witness :
    unmatchedEnv.generateResult = .ok "raw".toList ∧
      unmatchedEnv.parse (sanitizeLLMOutput "raw".toList) =
        .dict "An answer.".toList (some [unmatchedCitIn]) ∧
      (∀ c ∈ [unmatchedCitIn], find_matching_row c [plainRow] = none) ∧
      (answer_with_llm [plainRow] "q".toList "en".toList [] unmatchedEnv =
          build_refusal_payload (coerceLang "en".toList) ∧
        ∀ (cits' : List CitIn) (rows' : List Row),
          normalize_citations
              (cits'.filter (fun c => (find_matching_row c rows').isSome)) rows' =
            normalize_citations cits' rows') :=
  ⟨rfl, rfl, by decide,
    C1_unmatched_citations_dropped [plainRow] "q".toList "en".toList []
      unmatchedEnv "raw".toList "An answer.".toList [unmatchedCitIn]
      rfl rfl (by decide)⟩

/-! Claim C10 — language coercion. -/

/-- Claim C10 — any language value other than exactly `"ar"` is treated
as `"en"` by both the answering pipeline and the refusal-payload builder
(running either on `coerceLang lang` gives the same result as on
`lang`); every returned payload carries a language that is `"en"` or
`"ar"`, and its safe-next-steps and missing-info fields are the
localizations for exactly that language. -/
theorem C10_language_coercion (rows : List Row) (q lang : Str)
    (roles : List Str) (env : Env) :
    answer_with_llm rows q lang roles env =
        answer_with_llm rows q (coerceLang lang) roles env ∧
      build_refusal_payload lang = build_refusal_payload (coerceLang lang) ∧
      ((answer_with_llm rows q lang roles env).language = "en".toList ∨
        (answer_with_llm rows q lang roles env).language = "ar".toList) ∧
      (answer_with_llm rows q lang roles env).language = coerceLang lang ∧
      (answer_with_llm rows q lang roles env).safe_next_steps =
        safe_next_steps ((answer_with_llm rows q lang roles env).language) ∧
      (answer_with_llm rows q lang roles env).missing_info =
        translate_missing_info
          ((answer_with_llm rows q lang roles env).confidence)
          ((answer_with_llm rows q lang roles env).language) := by
  have hcoerce : answer_with_llm rows q lang roles env =
      answer_with_llm rows q (coerceLang lang) roles env := by
    simp only [answer_with_llm, coerceLang_idem]
  have hrefusal : build_refusal_payload lang =
      build_refusal_payload (coerceLang lang) := by
    simp only [build_refusal_payload, coerceLang_idem]
  refine ⟨hcoerce, hrefusal, ?_⟩
  rcases answer_with_llm_cases rows q lang roles env with h | ⟨ans, cits, h⟩
  · rw [h]
    have hlang : (build_refusal_payload (coerceLang lang)).language =
        coerceLang lang := by
      show coerceLang (coerceLang lang) = coerceLang lang
      exact coerceLang_idem lang
    refine ⟨?_, hlang, ?_, ?_⟩
    · rw [hlang]; exact coerceLang_cases lang
    · show safe_next_steps (coerceLang (coerceLang lang)) = _
      rw [coerceLang_idem, hlang]
    · show translate_missing_info "low".toList (coerceLang (coerceLang lang)) = _
      rw [coerceLang_idem, hlang]
      rfl
  · rw [h]
    exact ⟨coerceLang_cases lang, rfl, rfl, rfl⟩

/-! Claim C8 — the sanitizer contract. -/

lemma containsSub_eq_false_iff (pat s : Str) :
    containsSub pat s = false ↔ findSub pat s = none := by
  unfold containsSub
  rcases findSub pat s with _ | i <;> simp

lemma findSub_none_no_occurrence {pat : Str} :
    ∀ {s : Str}, findSub pat s = none →
      ∀ i, strPrefix pat (s.drop i) = false := by
  intro s
  induction s with
  | nil =>
    intro h i
    unfold findSub at h
    rw [List.drop_nil]
    by_cases hp : strPrefix pat []
    · rw [if_pos hp] at h; exact absurd h (by simp)
    · simpa using hp
  | cons c rest ih =>
    intro h i
    unfold findSub at h
    by_cases hp : strPrefix pat (c :: rest)
    · rw [if_pos hp] at h; exact absurd h (by simp)
    · rw [if_neg hp] at h
      have hrest : findSub pat rest = none := by
        rcases hfind : findSub pat rest with _ | j
        · rfl
        · rw [hfind] at h; exact absurd h (by simp)
      rcases i with _ | i
      · simpa using hp
      · rw [List.drop_succ_cons]
        exact ih hrest i

lemma strPrefix_iff_append :
    ∀ (pat s : Str), strPrefix pat s = true ↔ ∃ u, s = pat ++ u := by
  intro pat
  induction pat with
  | nil => intro s; simp [strPrefix]
  | cons p ps ih =>
    intro s
    rcases s with _ | ⟨c, cs⟩
    · simp [strPrefix]
    · simp only [strPrefix, Bool.and_eq_true, decide_eq_true_eq, ih,
        List.cons_append, List.cons.injEq]
      constructor
      · rintro ⟨rfl, u, rfl⟩
        exact ⟨u, rfl, rfl⟩
      · rintro ⟨u, rfl, rfl⟩
        exact ⟨rfl, u, rfl⟩

lemma pstrip_decomp (s : Str) : ∃ a u, s = a ++ pstrip s ++ u := by
  refine ⟨s.takeWhile isPyWs,
    ((s.dropWhile isPyWs).reverse.takeWhile isPyWs).reverse, ?_⟩
  conv_lhs => rw [← List.takeWhile_append_dropWhile isPyWs s]
  rw [List.append_assoc]
  congr 1
  have h2 : (s.dropWhile isPyWs).reverse =
      (s.dropWhile isPyWs).reverse.takeWhile isPyWs ++
        (s.dropWhile isPyWs).reverse.dropWhile isPyWs :=
    (List.takeWhile_append_dropWhile isPyWs (s.dropWhile isPyWs).reverse).symm
  calc s.dropWhile isPyWs
      = (s.dropWhile isPyWs).reverse.reverse := (List.reverse_reverse _).symm
    _ = ((s.dropWhile isPyWs).reverse.takeWhile isPyWs ++
          (s.dropWhile isPyWs).reverse.dropWhile isPyWs).reverse := by
          conv_lhs => rw [h2]
    _ = pstrip s ++ ((s.dropWhile isPyWs).reverse.takeWhile isPyWs).reverse := by
          rw [List.reverse_append]; rfl

lemma no_sub_of_decomp (pat s t : Str)
    (h : ∀ i, strPrefix pat (s.drop i) = false)
    (a v : Str) (hs : s = a ++ t ++ v) :
    ∀ i, strPrefix pat (t.drop i) = false := by
  intro i
  by_contra hcon
  rw [Bool.not_eq_false] at hcon
  obtain ⟨u, hu⟩ := (strPrefix_iff_append pat _).mp hcon
  have hps : t = t.take i ++ (pat ++ u) := by
    rw [← hu]
    exact (List.take_append_drop i _).symm
  have hsplit : s = (a ++ t.take i) ++ (pat ++ (u ++ v)) := by
    nth_rewrite 1 [hs]
    nth_rewrite 1 [hps]
    simp [List.append_assoc]
  have hdrop : s.drop ((a ++ t.take i).length) = pat ++ (u ++ v) := by
    nth_rewrite 1 [hsplit]
    exact List.drop_left _ _
  have := h ((a ++ t.take i).length)
  rw [hdrop] at this
  exact absurd this (by
    rw [Bool.not_eq_false]
    exact (strPrefix_iff_append pat _).mpr ⟨u ++ v, rfl⟩)

lemma no_sub_pstrip (pat s : Str) (hne : pat ≠ [])
    (h : ∀ i, strPrefix pat (s.drop i) = false) :
    ∀ i, strPrefix pat ((pstrip s).drop i) = false := by
  obtain ⟨a, v, hs⟩ := pstrip_decomp s
  exact no_sub_of_decomp pat s (pstrip s) h a v hs

lemma removeThinkAux_no_open (fuel : Nat) (s : Str)
    (h : findSub thinkOpenTag s = none) : removeThinkAux fuel s = s := by
  cases fuel with
  | zero => rfl
  | succ n =>
    unfold removeThinkAux
    simp only [h]

lemma removeThinkBlocks_no_open (s : Str)
    (h : findSub thinkOpenTag s = none) : removeThinkBlocks s = s :=
  removeThinkAux_no_open s.length s h

lemma fenceSearch_none :
    ∀ (s : Str), (∀ i, strPrefix fenceMark (s.drop i) = false) →
      fenceSearch s = none := by
  intro s
  induction s with
  | nil => intro _; rfl
  | cons c rest ih =>
    intro h
    have h0 : strPrefix fenceMark (c :: rest) = false := by
      have := h 0
      simpa using this
    have htry : fenceTryAt (c :: rest) = none := by
      unfold fenceTryAt
      rw [if_neg (by simp [h0])]
    unfold fenceSearch
    simp only [htry]
    exact ih (fun i => by
      have := h (i + 1)
      rwa [List.drop_succ_cons] at this)

/-- On raw provider output containing no reasoning-trace delimiter and
no code-fence marker, the sanitizer returns the input unchanged except
that leading and trailing whitespace is removed (Python `str.strip`). -/
lemma sanitize_no_markers (raw : Str)
    (h1 : containsSub thinkOpenTag raw = false)
    (h2 : containsSub thinkCloseTag raw = false)
    (h3 : containsSub fenceMark raw = false) :
    sanitizeLLMOutput raw = pstrip raw := by
  have f1 : findSub thinkOpenTag raw = none :=
    (containsSub_eq_false_iff _ _).mp h1
  have f2 : findSub thinkCloseTag raw = none :=
    (containsSub_eq_false_iff _ _).mp h2
  have f3 : findSub fenceMark raw = none :=
    (containsSub_eq_false_iff _ _).mp h3
  have p2 : ∀ i, strPrefix thinkCloseTag ((pstrip raw).drop i) = false :=
    no_sub_pstrip thinkCloseTag raw (by decide) (findSub_none_no_occurrence f2)
  have p3 : ∀ i, strPrefix fenceMark ((pstrip raw).drop i) = false :=
    no_sub_pstrip fenceMark raw (by decide) (findSub_none_no_occurrence f3)
  simp only [sanitizeLLMOutput]
  rw [removeThinkBlocks_no_open raw f1]
  have hc : strPrefix thinkCloseTag (pstrip raw) = false := by
    have := p2 0
    simpa using this
  rw [if_neg (by simp [hc])]
  simp only [fenceSearch_none (pstrip raw) p3]

/-- Claim C8 counterexample — the sanitizer does not return unrecognized
input unmodified: on `" hello "`, which contains no reasoning-trace
delimiter and no code fence, it returns `"hello"`, stripping the
surrounding whitespace. -/
theorem C8_counterexample_whitespace_stripped :
    containsSub thinkOpenTag " hello ".toList = false ∧
      containsSub thinkCloseTag " hello ".toList = false ∧
      containsSub fenceMark " hello ".toList = false ∧
      sanitizeLLMOutput " hello ".toList ≠ " hello ".toList ∧
      sanitizeLLMOutput " hello ".toList = "hello".toList := by
  refine ⟨by decide, by decide, by decide, by decide, by decide⟩


lemma strPrefix_take_of_append :
    ∀ (u pat v : Str), strPrefix pat (u ++ v) = true →
      strPrefix (pat.take u.length) u = true := by
  intro u
  induction u with
  | nil => intro pat v _; rfl
  | cons c u' ih =>
    intro pat v h
    rcases pat with _ | ⟨p, ps⟩
    · rfl
    · rw [List.cons_append] at h
      unfold strPrefix at h
      rw [Bool.and_eq_true] at h
      show strPrefix (p :: ps.take u'.length) (c :: u') = true
      unfold strPrefix
      rw [Bool.and_eq_true]
      exact ⟨h.1, ih ps v h.2⟩

lemma strPrefix_false_of_take (pat u v : Str)
    (h : strPrefix (pat.take u.length) u = false) :
    strPrefix pat (u ++ v) = false := by
  by_contra hcon
  rw [Bool.not_eq_false] at hcon
  rw [strPrefix_take_of_append u pat v hcon] at h
  exact absurd h (by simp)

lemma takeWhile_all_append (p : Char → Bool) :
    ∀ (u v : Str), u.all p = true → (u ++ v).takeWhile p = u ++ v.takeWhile p := by
  intro u
  induction u with
  | nil => intro v _; rfl
  | cons c u' ih =>
    intro v h
    rw [List.all_cons, Bool.and_eq_true] at h
    rw [List.cons_append, List.takeWhile_cons_of_pos h.1, ih v h.2,
      List.cons_append]

lemma takeWhile_nil_of_head (p : Char → Bool) (u v : Str) (hne : u ≠ [])
    (hhead : u.head?.all (fun ch => !p ch) = true) :
    (u ++ v).takeWhile p = [] := by
  rcases u with _ | ⟨c, u'⟩
  · exact absurd rfl hne
  · simp only [List.head?_cons] at hhead
    have hc : p c = false := by simpa using hhead
    rw [List.cons_append, List.takeWhile_cons_of_neg (by simp [hc])]

lemma dropWhile_eq_self_of_head (p : Char → Bool) (s : Str)
    (h : s.head?.all (fun ch => !p ch) = true) : s.dropWhile p = s := by
  rcases s with _ | ⟨c, rest⟩
  · rfl
  · simp only [List.head?_cons] at h
    have hc : p c = false := by simpa using h
    rw [List.dropWhile_cons_of_neg (by simp [hc])]

lemma pstrip_eq_self (s : Str)
    (hhead : s.head?.all (fun ch => !isPyWs ch) = true)
    (hlast : s.getLast?.all (fun ch => !isPyWs ch) = true) :
    pstrip s = s := by
  unfold pstrip
  rw [dropWhile_eq_self_of_head isPyWs s hhead]
  rw [dropWhile_eq_self_of_head isPyWs s.reverse
    (by rw [List.head?_reverse]; exact hlast)]
  exact List.reverse_reverse s

lemma find?_range'_min (p : Nat → Bool) :
    ∀ (n s m : Nat), s ≤ m → m < s + n →
      (∀ k, s ≤ k → k < m → p k = false) → p m = true →
      (List.range' s n).find? p = some m := by
  intro n
  induction n with
  | zero => intro s m h1 h2 _ _; omega
  | succ n ih =>
    intro s m h1 h2 hbefore hm
    show ((s :: List.range' (s + 1) n).find? p) = some m
    by_cases hsm : m = s
    · subst hsm
      rw [List.find?_cons_of_pos _ hm]
    · have hps : p s = false := hbefore s le_rfl (by omega)
      rw [List.find?_cons_of_neg _ (by simp [hps])]
      exact ih (s + 1) m (by omega) (by omega)
        (fun k hk1 hk2 => hbefore k (by omega) hk2) hm

lemma wsThenFence_eq_all :
    ∀ (u : Str),
      (∀ v, v ≠ [] → (∃ w, u = w ++ v) →
        strPrefix fenceMark (v ++ fenceMark) = false) →
      wsThenFence (u ++ fenceMark) = u.all isPyWs := by
  intro u
  induction u with
  | nil => intro _; decide
  | cons c u' ih =>
    intro h
    have h0 : strPrefix fenceMark (c :: (u' ++ fenceMark)) = false := by
      have := h (c :: u') (by simp) ⟨[], rfl⟩
      rwa [List.cons_append] at this
    rw [List.cons_append]
    unfold wsThenFence
    rw [if_neg (by simp [h0])]
    by_cases hc : isPyWs c
    · rw [if_pos hc,
        ih (fun v hv hex => h v hv ⟨c :: hex.choose, by
          rw [List.cons_append, ← hex.choose_spec]⟩)]
      simp [List.all_cons, hc]
    · rw [if_neg hc]
      simp [List.all_cons, hc]

lemma removeThinkAux_nil (fuel : Nat) : removeThinkAux fuel [] = [] := by
  cases fuel with
  | zero => rfl
  | succ n =>
    unfold removeThinkAux
    simp only [show findSub thinkOpenTag ([] : Str) = none from by decide]

lemma removeThinkAux_congr :
    ∀ (fuel1 : Nat) (s : Str) (fuel2 : Nat), s.length ≤ fuel1 →
      s.length ≤ fuel2 → removeThinkAux fuel1 s = removeThinkAux fuel2 s := by
  intro fuel1
  induction fuel1 with
  | zero =>
    intro s fuel2 h1 _
    have hs : s = [] := List.length_eq_zero.mp (Nat.le_zero.mp h1)
    subst hs
    rw [removeThinkAux_nil, removeThinkAux_nil]
  | succ f ih =>
    intro s fuel2 h1 h2
    rcases s with _ | ⟨c, rest⟩
    · rw [removeThinkAux_nil, removeThinkAux_nil]
    · rcases fuel2 with _ | g
      · simp at h2
      · show removeThinkAux (f + 1) (c :: rest) = removeThinkAux (g + 1) (c :: rest)
        unfold removeThinkAux
        rcases hopen : findSub thinkOpenTag (c :: rest) with _ | i
        · simp only [hopen]
        · simp only [hopen]
          rcases hclose : findSub thinkCloseTag
              ((c :: rest).drop (i + thinkOpenTag.length)) with _ | j
          · simp only [hclose]
          · simp only [hclose]
            have e1 : thinkOpenTag.length = 7 := rfl
            have e2 : thinkCloseTag.length = 8 := rfl
            have hl1 : ((c :: rest).drop (i + thinkOpenTag.length)).length =
                (c :: rest).length - (i + 7) := by rw [List.length_drop, e1]
            have hl2 : (((c :: rest).drop (i + thinkOpenTag.length)).drop
                (j + thinkCloseTag.length)).length =
                ((c :: rest).drop (i + thinkOpenTag.length)).length - (j + 8) := by
              rw [List.length_drop, e2]
            have hl3 : (c :: rest).length = rest.length + 1 := List.length_cons c rest
            congr 1
            exact ih _ g (by omega) (by omega)

/-- Removal of one paired reasoning-trace block: when the displayed
`<think>` is the leftmost one and the displayed `</think>` is the first
one after it, the block and its contents disappear and scanning
continues after it. -/
lemma removeThinkBlocks_pair (a b c : Str)
    (hopen : findSub thinkOpenTag
      (a ++ (thinkOpenTag ++ (b ++ (thinkCloseTag ++ c)))) = some a.length)
    (hclose : findSub thinkCloseTag (b ++ (thinkCloseTag ++ c)) = some b.length) :
    removeThinkBlocks (a ++ (thinkOpenTag ++ (b ++ (thinkCloseTag ++ c)))) =
      a ++ removeThinkBlocks c := by
  have e1 : thinkOpenTag.length = 7 := rfl
  have e2 : thinkCloseTag.length = 8 := rfl
  have hslen : (a ++ (thinkOpenTag ++ (b ++ (thinkCloseTag ++ c)))).length =
      a.length + 7 + b.length + 8 + c.length := by
    simp only [List.length_append, e1, e2]
    omega
  obtain ⟨m, hm⟩ : ∃ m, (a ++ (thinkOpenTag ++ (b ++ (thinkCloseTag ++ c)))).length
      = m + 1 := ⟨a.length + 7 + b.length + 8 + c.length - 1, by omega⟩
  have hafter : (a ++ (thinkOpenTag ++ (b ++ (thinkCloseTag ++ c)))).drop
      (a.length + thinkOpenTag.length) = b ++ (thinkCloseTag ++ c) := by
    rw [← List.length_append a thinkOpenTag, ← List.append_assoc]
    exact List.drop_left _ _
  have htake : (a ++ (thinkOpenTag ++ (b ++ (thinkCloseTag ++ c)))).take a.length
      = a := List.take_left _ _
  have hdrop2 : (b ++ (thinkCloseTag ++ c)).drop (b.length + thinkCloseTag.length)
      = c := by
    rw [← List.length_append b thinkCloseTag, ← List.append_assoc]
    exact List.drop_left _ _
  unfold removeThinkBlocks
  rw [hm]
  conv_lhs => rw [removeThinkAux]
  simp only [hopen, hafter, hclose, htake, hdrop2]
  congr 1
  exact removeThinkAux_congr m c c.length (by omega) le_rfl

lemma fenceGroupFrom_eval (B0 ws2 : Str) (d : Char)
    (hd : isPyWs d = false) (hws2 : ws2.all isPyWs = true)
    (hfence : ∀ v, v ≠ [] → (∃ w, (B0 ++ [d]) ++ ws2 = w ++ v) →
      strPrefix fenceMark (v ++ fenceMark) = false) :
    fenceGroupFrom ((B0 ++ [d]) ++ (ws2 ++ fenceMark)) = some (B0 ++ [d]) := by
  have hB : (B0 ++ [d]).length = B0.length + 1 := by simp
  have hF : fenceMark.length = 3 := rfl
  have hTlen : ((B0 ++ [d]) ++ (ws2 ++ fenceMark)).length =
      B0.length + 1 + ws2.length + 3 := by
    simp only [List.length_append, hB, hF]
    omega
  have hptrue : wsThenFence
      (((B0 ++ [d]) ++ (ws2 ++ fenceMark)).drop (B0.length + 1)) = true := by
    rw [show B0.length + 1 = (B0 ++ [d]).length from hB.symm, List.drop_left]
    rw [wsThenFence_eq_all ws2 (fun v hv hex => hfence v hv
      ⟨(B0 ++ [d]) ++ hex.choose, by
        simp only [List.append_assoc]
        rw [← hex.choose_spec]⟩)]
    exact hws2
  have hpfalse : ∀ k, 1 ≤ k → k ≤ B0.length →
      wsThenFence (((B0 ++ [d]) ++ (ws2 ++ fenceMark)).drop k) = false := by
    intro k hk1 hk2
    have hdropk : ((B0 ++ [d]) ++ (ws2 ++ fenceMark)).drop k =
        ((B0.drop k ++ [d]) ++ ws2) ++ fenceMark := by
      rw [List.drop_append_of_le_length (by omega),
        List.drop_append_of_le_length (by omega)]
      simp [List.append_assoc]
    rw [hdropk]
    have hsfx : ∀ v, v ≠ [] → (∃ w, (B0.drop k ++ [d]) ++ ws2 = w ++ v) →
        strPrefix fenceMark (v ++ fenceMark) = false := by
      rintro v hv ⟨w, he⟩
      refine hfence v hv ⟨B0.take k ++ w, ?_⟩
      conv_lhs => rw [show B0 = B0.take k ++ B0.drop k from
        (List.take_append_drop k B0).symm]
      rw [List.append_assoc] at he
      simp only [List.append_assoc]
      rw [← he]
    rw [wsThenFence_eq_all _ hsfx]
    simp [List.all_append, hd]
  unfold fenceGroupFrom
  rw [List.range_eq_range']
  rw [find?_range'_min
    (fun i => wsThenFence (((B0 ++ [d]) ++ (ws2 ++ fenceMark)).drop (i + 1)))
    ((B0 ++ [d]) ++ (ws2 ++ fenceMark)).length 0 B0.length (Nat.zero_le _)
    (by omega)
    (fun k _ hk => hpfalse (k + 1) (by omega) (by omega))
    hptrue]
  rw [Option.map_some']
  rw [show B0.length + 1 = (B0 ++ [d]).length from hB.symm, List.take_left]

lemma fenceMatchTail_eval (ws1 B0 ws2 : Str) (d : Char)
    (hws1 : ws1.all isPyWs = true) (hd : isPyWs d = false)
    (hws2 : ws2.all isPyWs = true)
    (hhead : (B0 ++ [d]).head?.all (fun ch => !isPyWs ch) = true)
    (hfence : ∀ v, v ≠ [] → (∃ w, ws1 ++ ((B0 ++ [d]) ++ ws2) = w ++ v) →
      strPrefix fenceMark (v ++ fenceMark) = false) :
    fenceMatchTail ((ws1 ++ ((B0 ++ [d]) ++ ws2)) ++ fenceMark)
      = some (B0 ++ [d]) := by
  have hgroup : fenceGroupFrom ((B0 ++ [d]) ++ (ws2 ++ fenceMark))
      = some (B0 ++ [d]) := by
    refine fenceGroupFrom_eval B0 ws2 d hd hws2 ?_
    rintro v hv ⟨w, he⟩
    exact hfence v hv ⟨ws1 ++ w, by rw [he]; simp [List.append_assoc]⟩
  have hT : (ws1 ++ ((B0 ++ [d]) ++ ws2)) ++ fenceMark =
      ws1 ++ ((B0 ++ [d]) ++ (ws2 ++ fenceMark)) := by
    simp [List.append_assoc]
  have htw : (ws1 ++ ((B0 ++ [d]) ++ (ws2 ++ fenceMark))).takeWhile isPyWs
      = ws1 := by
    rw [takeWhile_all_append isPyWs ws1 _ hws1,
      takeWhile_nil_of_head isPyWs (B0 ++ [d]) (ws2 ++ fenceMark)
        (by simp) hhead, List.append_nil]
  rw [hT]
  unfold fenceMatchTail
  rw [htw]
  rcases ws1 with _ | ⟨w0, ws1'⟩
  · simp only [List.length_nil, List.nil_append]
    exact hgroup
  · simp only [List.length_cons]
    unfold fenceTryA
    have hdrops : ((w0 :: ws1') ++ ((B0 ++ [d]) ++ (ws2 ++ fenceMark))).drop
        (ws1'.length + 1) = (B0 ++ [d]) ++ (ws2 ++ fenceMark) := by
      rw [show ws1'.length + 1 = (w0 :: ws1').length from by simp]
      exact List.drop_left _ _
    simp only [hdrops, hgroup]

lemma fenceSearch_of_tryAt (s g : Str) (hne : s ≠ [])
    (h : fenceTryAt s = some g) : fenceSearch s = some g := by
  rcases s with _ | ⟨c, rest⟩
  · exact absurd rfl hne
  · unfold fenceSearch
    simp only [h]

lemma fenceTryAt_eval (jtag ws1 B0 ws2 : Str) (d : Char)
    (hjt : jtag = jsonWord ∨ jtag = [])
    (hws1 : ws1.all isPyWs = true) (hd : isPyWs d = false)
    (hws2 : ws2.all isPyWs = true)
    (hhead : (B0 ++ [d]).head?.all (fun ch => !isPyWs ch) = true)
    (hjson : strPrefix jsonWord ((ws1 ++ ((B0 ++ [d]) ++ ws2)) ++ fenceMark) = false)
    (hfence : ∀ v, v ≠ [] → (∃ w, ws1 ++ ((B0 ++ [d]) ++ ws2) = w ++ v) →
      strPrefix fenceMark (v ++ fenceMark) = false) :
    fenceTryAt (fenceMark ++ (jtag ++ ((ws1 ++ ((B0 ++ [d]) ++ ws2)) ++ fenceMark)))
      = some (B0 ++ [d]) := by
  have hmt := fenceMatchTail_eval ws1 B0 ws2 d hws1 hd hws2 hhead hfence
  unfold fenceTryAt
  rw [if_pos (by
    rw [strPrefix_iff_append fenceMark _]
    exact ⟨_, rfl⟩)]
  simp only [List.drop_left]
  rcases hjt with rfl | rfl
  · rw [if_pos (by rw [strPrefix_iff_append jsonWord _]; exact ⟨_, rfl⟩)]
    simp only [List.drop_left]
    simp only [hmt]
  · simp only [List.nil_append]
    rw [if_neg (by simpa using hjson)]
    exact hmt

/-- End-to-end fence extraction: on input that is exactly a fenced code
block (optionally tagged `json`) around whitespace-padded content, the
sanitizer returns exactly the content. -/
lemma sanitize_fenced (jtag ws1 B0 ws2 : Str) (d : Char)
    (hjt : jtag = jsonWord ∨ jtag = [])
    (hws1 : ws1.all isPyWs = true) (hd : isPyWs d = false)
    (hws2 : ws2.all isPyWs = true)
    (hhead : (B0 ++ [d]).head?.all (fun ch => !isPyWs ch) = true)
    (hnothink : containsSub thinkOpenTag
      (fenceMark ++ (jtag ++ ((ws1 ++ ((B0 ++ [d]) ++ ws2)) ++ fenceMark))) = false)
    (hjson : strPrefix jsonWord ((ws1 ++ ((B0 ++ [d]) ++ ws2)) ++ fenceMark) = false)
    (hfence : ∀ i, i < (ws1 ++ ((B0 ++ [d]) ++ ws2)).length →
      strPrefix fenceMark
        ((ws1 ++ ((B0 ++ [d]) ++ ws2)).drop i ++ fenceMark) = false) :
    sanitizeLLMOutput
      (fenceMark ++ (jtag ++ ((ws1 ++ ((B0 ++ [d]) ++ ws2)) ++ fenceMark)))
      = B0 ++ [d] := by
  have hfs : ∀ v, v ≠ [] → (∃ w, ws1 ++ ((B0 ++ [d]) ++ ws2) = w ++ v) →
      strPrefix fenceMark (v ++ fenceMark) = false := by
    rintro v hv ⟨w, he⟩
    have hvpos : 0 < v.length := List.length_pos.mpr hv
    have hlen : (ws1 ++ ((B0 ++ [d]) ++ ws2)).length = w.length + v.length := by
      rw [he, List.length_append]
    have hw := hfence w.length (by omega)
    rwa [he, List.drop_left] at hw
  have hZ : (ws1 ++ ((B0 ++ [d]) ++ ws2)) ++ fenceMark ≠ [] := by
    intro h
    exact absurd (List.append_eq_nil.mp h).2 (by decide)
  have hY : jtag ++ ((ws1 ++ ((B0 ++ [d]) ++ ws2)) ++ fenceMark) ≠ [] := by
    intro h
    exact hZ (List.append_eq_nil.mp h).2
  have hraw : fenceMark ++ (jtag ++ ((ws1 ++ ((B0 ++ [d]) ++ ws2)) ++ fenceMark))
      ≠ [] := by
    intro h
    exact absurd (List.append_eq_nil.mp h).1 (by decide)
  have hthink : removeThinkBlocks
      (fenceMark ++ (jtag ++ ((ws1 ++ ((B0 ++ [d]) ++ ws2)) ++ fenceMark))) =
      fenceMark ++ (jtag ++ ((ws1 ++ ((B0 ++ [d]) ++ ws2)) ++ fenceMark)) :=
    removeThinkBlocks_no_open _ ((containsSub_eq_false_iff _ _).mp hnothink)
  have hps : pstrip
      (fenceMark ++ (jtag ++ ((ws1 ++ ((B0 ++ [d]) ++ ws2)) ++ fenceMark))) =
      fenceMark ++ (jtag ++ ((ws1 ++ ((B0 ++ [d]) ++ ws2)) ++ fenceMark)) := by
    refine pstrip_eq_self _ ?_ ?_
    · rw [List.head?_append_of_ne_nil fenceMark (by decide)]
      decide
    · rw [List.getLast?_append_of_ne_nil fenceMark hY,
        List.getLast?_append_of_ne_nil jtag hZ,
        List.getLast?_append_of_ne_nil _ (show fenceMark ≠ [] by decide)]
      decide
  have hnoclose : strPrefix thinkCloseTag
      (fenceMark ++ (jtag ++ ((ws1 ++ ((B0 ++ [d]) ++ ws2)) ++ fenceMark)))
      = false :=
    strPrefix_false_of_take thinkCloseTag fenceMark _ (by decide)
  have hsearch : fenceSearch
      (fenceMark ++ (jtag ++ ((ws1 ++ ((B0 ++ [d]) ++ ws2)) ++ fenceMark)))
      = some (B0 ++ [d]) :=
    fenceSearch_of_tryAt _ _ hraw
      (fenceTryAt_eval jtag ws1 B0 ws2 d hjt hws1 hd hws2 hhead hjson hfs)
  simp only [sanitizeLLMOutput]
  rw [hthink, hps]
  rw [if_neg (by simpa using hnoclose)]
  simp only [hsearch]
  refine pstrip_eq_self _ hhead ?_
  rw [List.getLast?_append_of_ne_nil B0 (by simp)]
  simp [hd]

/-- End-to-end removal of an unmatched closing delimiter at the start of
the text. -/
lemma sanitize_leading_close (rest : Str)
    (hopen : containsSub thinkOpenTag (thinkCloseTag ++ rest) = false)
    (hfence : containsSub fenceMark rest = false)
    (hlast : rest.getLast?.all (fun ch => !isPyWs ch) = true) :
    sanitizeLLMOutput (thinkCloseTag ++ rest) = pstrip rest := by
  have hthink : removeThinkBlocks (thinkCloseTag ++ rest) = thinkCloseTag ++ rest :=
    removeThinkBlocks_no_open _ ((containsSub_eq_false_iff _ _).mp hopen)
  have hps : pstrip (thinkCloseTag ++ rest) = thinkCloseTag ++ rest := by
    refine pstrip_eq_self _ ?_ ?_
    · rw [List.head?_append_of_ne_nil thinkCloseTag (by decide)]
      decide
    · rcases rest with _ | ⟨r0, rest'⟩
      · simp only [List.append_nil]
        decide
      · rw [List.getLast?_append_of_ne_nil thinkCloseTag (by simp)]
        exact hlast
  have hstarts : strPrefix thinkCloseTag (thinkCloseTag ++ rest) = true :=
    (strPrefix_iff_append _ _).mpr ⟨rest, rfl⟩
  have hsearch : fenceSearch (pstrip rest) = none :=
    fenceSearch_none _ (no_sub_pstrip fenceMark rest (by decide)
      (findSub_none_no_occurrence ((containsSub_eq_false_iff _ _).mp hfence)))
  simp only [sanitizeLLMOutput]
  rw [hthink, hps]
  rw [if_pos (by simpa using hstarts)]
  rw [List.drop_left]
  simp only [hsearch]

/-- Claim C8 (amended) — the sanitizer: (i) removes a paired
reasoning-trace delimiter block together with its contents, continuing
after it; (ii) removes an unmatched closing delimiter at the start of
the text; (iii) if the remaining text is wrapped in a fenced code block
(optionally tagged `json`), extracts only the fenced content; and (iv)
otherwise returns the string unchanged except for removal of its leading
and trailing whitespace (Python `str.strip`) — the original "returns the
string unmodified otherwise" holds only up to this whitespace
stripping. -/
theorem C8_sanitizer_contract :
    (∀ a b c : Str,
      findSub thinkOpenTag (a ++ (thinkOpenTag ++ (b ++ (thinkCloseTag ++ c))))
          = some a.length →
      findSub thinkCloseTag (b ++ (thinkCloseTag ++ c)) = some b.length →
      removeThinkBlocks (a ++ (thinkOpenTag ++ (b ++ (thinkCloseTag ++ c))))
        = a ++ removeThinkBlocks c) ∧
    (∀ rest : Str,
      containsSub thinkOpenTag (thinkCloseTag ++ rest) = false →
      containsSub fenceMark rest = false →
      rest.getLast?.all (fun ch => !isPyWs ch) = true →
      sanitizeLLMOutput (thinkCloseTag ++ rest) = pstrip rest) ∧
    (∀ jtag ws1 B0 ws2 : Str, ∀ d : Char,
      jtag = jsonWord ∨ jtag = [] →
      ws1.all isPyWs = true → isPyWs d = false → ws2.all isPyWs = true →
      (B0 ++ [d]).head?.all (fun ch => !isPyWs ch) = true →
      containsSub thinkOpenTag
        (fenceMark ++ (jtag ++ ((ws1 ++ ((B0 ++ [d]) ++ ws2)) ++ fenceMark)))
          = false →
      strPrefix jsonWord ((ws1 ++ ((B0 ++ [d]) ++ ws2)) ++ fenceMark) = false →
      (∀ i, i < (ws1 ++ ((B0 ++ [d]) ++ ws2)).length →
        strPrefix fenceMark
          ((ws1 ++ ((B0 ++ [d]) ++ ws2)).drop i ++ fenceMark) = false) →
      sanitizeLLMOutput
        (fenceMark ++ (jtag ++ ((ws1 ++ ((B0 ++ [d]) ++ ws2)) ++ fenceMark)))
        = B0 ++ [d]) ∧
    (∀ raw : Str,
      containsSub thinkOpenTag raw = false →
      containsSub thinkCloseTag raw = false →
      containsSub fenceMark raw = false →
      sanitizeLLMOutput raw = pstrip raw) :=
  ⟨removeThinkBlocks_pair,
    sanitize_leading_close,
    fun jtag ws1 B0 ws2 d hjt hws1 hd hws2 hhead hnothink hjson hfence =>
      sanitize_fenced jtag ws1 B0 ws2 d hjt hws1 hd hws2 hhead hnothink
        hjson hfence,
    sanitize_no_markers⟩

theorem C8_sanitizer_contract_witness :
    removeThinkBlocks ("pre ".toList ++ (thinkOpenTag ++
          ("chain of thought".toList ++ (thinkCloseTag ++ "post".toList))))
        = "pre ".toList ++ removeThinkBlocks "post".toList ∧
      sanitizeLLMOutput (thinkCloseTag ++ " result".toList)
        = pstrip " result".toList ∧
      sanitizeLLMOutput (fenceMark ++ (jsonWord ++
          (("\n".toList ++ (("the answe".toList ++ ['r']) ++ "\n".toList)) ++
            fenceMark)))
        = "the answe".toList ++ ['r'] ∧
      sanitizeLLMOutput " hello ".toList = pstrip " hello ".toList :=
  ⟨C8_sanitizer_contract.1 "pre ".toList "chain of thought".toList
      "post".toList (by decide) (by decide),
    C8_sanitizer_contract.2.1 " result".toList (by decide) (by decide)
      (by decide),
    C8_sanitizer_contract.2.2.1 jsonWord "\n".toList "the answe".toList
      "\n".toList 'r' (Or.inl rfl) (by decide) (by decide) (by decide)
      (by decide) (by decide) (by decide) (by decide),
    C8_sanitizer_contract.2.2.2 " hello ".toList (by decide) (by decide)
      (by decide)⟩
